import Mathlib

/-!
Verification of the changed-file detection engine of the
repository-metadata-action repository.

The development shallowly embeds the Python source:

* `src/git_operations.py` — the `GitOperations` wrapper: categorized diffs,
  merge-base caching, fetch/deepen (cache invalidation).
* `src/extractors/changed_files.py` — `ChangedFilesExtractor`: push and
  pull-request strategies with layered fallbacks.
* `src/extractors/changed_files_last_commit.py` —
  `ChangedFilesLastCommitExtractor`.
* `src/models.py` — `ChangedFilesMetadata` with its `sync_counts` validator.

The underlying GitPython / PyGithub primitives are modelled as oracles
(fields of `RepoO` / `GitOpsO` / `GitHubAPIO`): each primitive is a function
of its arguments returning `Except` — an `.error` result models the
primitive raising an exception.  Functions of the repository that catch
exceptions are translated by matching on the `Except` value exactly where
the Python `try/except` sits.  Every primitive invocation performed by the
engine is recorded in a trace (`Ev` / `GitEv`) so that call-sequencing
claims can be stated.
-/

namespace RepoMeta

/-- One file-level diff record as produced by GitPython (`parent.diff(commit)`
entries): the fields read by the categorization loops in
`src/git_operations.py`. -/
structure DiffRecord where
  a_path : Option String
  b_path : Option String
  new_file : Bool
  deleted_file : Bool
  renamed_file : Bool
deriving DecidableEq, Repr

/-- The categorized dict `{"added": ..., "modified": ..., "removed": ...}`
returned by the categorized diff functions of `GitOperations`. -/
structure Categorized where
  added : List String
  modified : List String
  removed : List String
deriving DecidableEq, Repr

/-- The empty categorized dict `{"added": [], "modified": [], "removed": []}`. -/
def emptyCat : Categorized := ⟨[], [], []⟩

/-- `all_files = categorized["added"] + categorized["modified"] + categorized["removed"]`
as computed at the extractor call sites. -/
def Categorized.allOf (c : Categorized) : List String :=
  c.added ++ c.modified ++ c.removed

/-- Insertion of a string into a strictly sorted list, dropping it if already
present.  Folding this over a list models Python `sorted(set(l))`. -/
def insertSorted (s : String) : List String → List String
  | [] => [s]
  | t :: ts =>
      if s < t then s :: t :: ts
      else if s = t then t :: ts
      else t :: insertSorted s ts

/-- Model of Python `sorted(set(l))`: the strictly sorted list of the distinct
elements of `l`. -/
def sortedDedup (l : List String) : List String := l.foldr insertSorted []

/-- Model of Python `sorted(l)` (no deduplication): stable insertion sort. -/
def insertSortedKeep (s : String) : List String → List String
  | [] => [s]
  | t :: ts => if s ≤ t then s :: t :: ts else t :: insertSortedKeep s ts

/-- Model of Python `sorted(l)` keeping duplicates. -/
def pySorted (l : List String) : List String := l.foldr insertSortedKeep []

/-! ## Categorization of diff records

The three categorized diff functions of `GitOperations`
(`get_commit_files_categorized`, `diff_commits_categorized`,
`diff_branches_categorized`) all run the same classification loop over the
diff records and return each bucket as `sorted(set(bucket))`. -/

/-- The change category a diff record is filed under. -/
inductive Cat where
  | addedC
  | modifiedC
  | removedC
deriving DecidableEq, Repr

/-- The classification chain of the loops in `src/git_operations.py`
(`if diff.new_file ... elif diff.deleted_file ... elif diff.renamed_file ...
else ...`): the category the record goes to and the path appended, or `none`
if the relevant path field is absent so nothing is appended. -/
def recordCat (d : DiffRecord) : Option (Cat × String) :=
  if d.new_file then d.b_path.map (fun p => (Cat.addedC, p))
  else if d.deleted_file then d.a_path.map (fun p => (Cat.removedC, p))
  else if d.renamed_file then d.b_path.map (fun p => (Cat.modifiedC, p))
  else
    match d.b_path with
    | some p => some (Cat.modifiedC, p)
    | none => d.a_path.map (fun p => (Cat.modifiedC, p))

/-- The paths the loop appends to one bucket, in loop order. -/
def bucketOf (c : Cat) (ds : List DiffRecord) : List String :=
  ds.filterMap (fun d =>
    match recordCat d with
    | some (c', p) => if c' = c then some p else none
    | none => none)

/-- The categorization loop of `src/git_operations.py` followed by
`sorted(set(...))` on each bucket. -/
def categorizeDiffs (ds : List DiffRecord) : Categorized :=
  ⟨sortedDedup (bucketOf Cat.addedC ds),
   sortedDedup (bucketOf Cat.modifiedC ds),
   sortedDedup (bucketOf Cat.removedC ds)⟩

/-- Well-formedness of a list of diff records: no path is classified under
two distinct categories by two records of the list.  Any diff GitPython
produces between two trees satisfies this, since each path occurs in at most
one diff record. -/
def DiffsFunctional (ds : List DiffRecord) : Prop :=
  ∀ d1 ∈ ds, ∀ d2 ∈ ds, ∀ c1 c2 p,
    recordCat d1 = some (c1, p) → recordCat d2 = some (c2, p) → c1 = c2

/-- Well-formedness of a categorized result: each bucket is strictly sorted
(hence duplicate-free) and the three buckets are pairwise disjoint. -/
def Categorized.WF (c : Categorized) : Prop :=
  c.added.Sorted (· < ·) ∧ c.modified.Sorted (· < ·) ∧
    c.removed.Sorted (· < ·) ∧
    (∀ p ∈ c.added, p ∉ c.modified) ∧
    (∀ p ∈ c.added, p ∉ c.removed) ∧
    (∀ p ∈ c.modified, p ∉ c.removed)

/-! ## GitOperations model (`src/git_operations.py`)

The underlying GitPython primitives are an oracle `RepoO`; an `.error`
result models the primitive raising an exception.  `GitOperations` methods
that catch those exceptions internally are translated as total functions
returning the empty categorized dict on the caught error, exactly where the
Python `except` clauses sit. -/

/-- Error value standing for a raised Python exception
(GitCommandError, ValueError, GitOperationError, ...). -/
structure GitErr where
  msg : String
deriving DecidableEq, Repr

/-- Oracle for the GitPython primitives invoked by `GitOperations`.
Strings stand for refs and commit ids. -/
structure RepoO where
  /-- Whether `self.repo` is non-None (repository present and loadable). -/
  repoPresent : Bool
  /-- Model of `repo.commit(ref)`: resolve a ref to a commit id. -/
  resolve : String → Except GitErr String
  /-- Model of `commit.parents`: the parent commit ids of a commit. -/
  parentsOf : String → List String
  /-- Model of `commit.tree.traverse()`: paths of all items in the tree. -/
  treeOf : String → List String
  /-- Model of `a.diff(b)`: the diff records between two commits. -/
  diffOf : String → String → Except GitErr (List DiffRecord)
  /-- Model of `repo.merge_base(a, b)`. -/
  merge_base : String → String → Except GitErr (List String)
  /-- Model of `origin.fetch(refspec, depth)`. -/
  fetchRes : String → Option Nat → Except GitErr Unit
  /-- Model of `repo.git.fetch("--deepen=N")`. -/
  deepenRes : Nat → Except GitErr Unit

/-- Model of `GitOperations.get_commit_files_categorized` (total: the
Python function catches `GitCommandError`/`ValueError`/`IndexError` and
returns the empty dict). -/
def GO.get_commit_files_categorized (r : RepoO) (sha : String) : Categorized :=
  if !r.repoPresent then emptyCat
  else
    match r.resolve sha with
    | .error _ => emptyCat
    | .ok cid =>
        match r.parentsOf cid with
        | [] => ⟨pySorted (r.treeOf cid), [], []⟩
        | parent :: _ =>
            match r.diffOf parent cid with
            | .error _ => emptyCat
            | .ok ds => categorizeDiffs ds

/-- Model of `GitOperations.diff_commits_categorized` (total, same catch
structure). -/
def GO.diff_commits_categorized (r : RepoO) (from_sha to_sha : String) :
    Categorized :=
  if !r.repoPresent then emptyCat
  else
    match r.resolve from_sha with
    | .error _ => emptyCat
    | .ok fc =>
        match r.resolve to_sha with
        | .error _ => emptyCat
        | .ok tc =>
            match r.diffOf fc tc with
            | .error _ => emptyCat
            | .ok ds => categorizeDiffs ds

/-- Merge-base cache of a `GitOperations` instance
(`self._merge_base_cache`), restricted to the string keys
`f"{base}...{head}"` used by `diff_branches_categorized`. -/
structure MBState where
  cache : List (String × Option String)
deriving DecidableEq, Repr

/-- Dict membership/lookup on the cache. -/
def MBState.lookup (st : MBState) (k : String) : Option (Option String) :=
  (st.cache.find? (fun kv => kv.1 == k)).map Prod.snd

/-- Trace of GitOperations-internal primitive invocations; the only event
recorded is an invocation of the merge-base computation primitive
`repo.merge_base`. -/
inductive GitEv where
  | mergeBaseCompute (base head : String)
deriving DecidableEq, Repr

/-- Cache key `f"{base}...{head}"`. -/
def cacheKey (base head : String) : String := base ++ "..." ++ head

/-- Diff selection of `diff_branches_categorized`: three-dot diff
`merge_base.diff(head_commit)` when a merge base exists, otherwise the
two-dot fallback `base_commit.diff(head_commit)`. -/
def GO.mbDiff (r : RepoO) (bc hc : String) (mb : Option String) :
    Except GitErr (List DiffRecord) :=
  match mb with
  | none => r.diffOf bc hc
  | some m => r.diffOf m hc

/-- The tail of `diff_branches_categorized` after the merge base is known:
the selected diff followed by the categorization loop. -/
def GO.afterMergeBase (r : RepoO) (bc hc : String) (mb : Option String)
    (st : MBState) (evs : List GitEv) : Categorized × MBState × List GitEv :=
  match GO.mbDiff r bc hc mb with
  | .error _ => (emptyCat, st, evs)
  | .ok ds => (categorizeDiffs ds, st, evs)

/-- Model of `GitOperations.diff_branches_categorized`: resolve both refs,
look the merge base up in the cache or compute and cache it, then diff and
categorize.  Returns the categorized dict, the updated cache state, and the
trace of merge-base computations.  All caught exceptions yield the empty
dict with the cache unchanged. -/
def GO.diff_branches_categorized (r : RepoO) (st : MBState)
    (base head : String) : Categorized × MBState × List GitEv :=
  if !r.repoPresent then (emptyCat, st, [])
  else
    match r.resolve base with
    | .error _ => (emptyCat, st, [])
    | .ok bc =>
        match r.resolve head with
        | .error _ => (emptyCat, st, [])
        | .ok hc =>
            match st.lookup (cacheKey base head) with
            | some mb => GO.afterMergeBase r bc hc mb st []
            | none =>
                match r.merge_base bc hc with
                | .error _ =>
                    (emptyCat, st, [GitEv.mergeBaseCompute base head])
                | .ok mbs =>
                    GO.afterMergeBase r bc hc mbs.head?
                      ⟨(cacheKey base head, mbs.head?) :: st.cache⟩
                      [GitEv.mergeBaseCompute base head]

/-- The refspec `fetch_branch` builds: the branch name with any `origin/`
prefix stripped, mapped to its remote-tracking ref. -/
def fetchRefspec (branch : String) : String :=
  let branch_name :=
    if branch.startsWith "origin/" then branch.drop 7 else branch
  branch_name ++ ":refs/remotes/origin/" ++ branch_name

/-- The depth argument `fetch_branch` passes on: `if depth:` is Python
truthiness, so `None` and `0` both mean an un-depth-limited fetch. -/
def fetchDepthArg (depth : Option Nat) : Option Nat :=
  match depth with
  | some d => if d != 0 then some d else none
  | none => none

/-- Model of `GitOperations.fetch_branch`: strips the `origin/` prefix,
builds the refspec, fetches, and on success clears the merge-base cache
(and the shallow-status cache, not modelled).  On failure raises
`GitOperationError` and leaves the cache untouched. -/
def GO.fetch_branch (r : RepoO) (st : MBState) (branch : String)
    (depth : Option Nat) : Except GitErr Unit × MBState :=
  if !r.repoPresent then
    (Except.error ⟨"No git repository available for fetch"⟩, st)
  else
    match r.fetchRes (fetchRefspec branch) (fetchDepthArg depth) with
    | .error e => (.error e, st)
    | .ok _ => (.ok (), ⟨[]⟩)

/-- Model of `GitOperations.deepen`: fetches with `--deepen=N`, clearing the
merge-base cache on success; raises on failure with the cache untouched. -/
def GO.deepen (r : RepoO) (st : MBState) (depth : Nat) :
    Except GitErr Unit × MBState :=
  if !r.repoPresent then
    (Except.error ⟨"No git repository available for deepen"⟩, st)
  else
    match r.deepenRes depth with
    | .error e => (.error e, st)
    | .ok _ => (.ok (), ⟨[]⟩)

/-- Well-formedness of the git data an oracle can return: tree traversals
list distinct paths, and any diff classifies each path under one category. -/
def RepoO.WF (r : RepoO) : Prop :=
  (∀ cid, (r.treeOf cid).Nodup) ∧
  (∀ a b ds, r.diffOf a b = Except.ok ds → DiffsFunctional ds)

/-! ## Data model (`src/models.py`) -/

/-- The `ChangedFilesMetadata` pydantic model. -/
structure ChangedFilesMetadata where
  count : Nat
  files : List String
  added : List String
  added_count : Nat
  modified : List String
  modified_count : Nat
  removed : List String
  removed_count : Nat
deriving DecidableEq, Repr

/-- The `sync_counts` model validator: overwrite every count with the
length of the corresponding list. -/
def ChangedFilesMetadata.sync_counts (m : ChangedFilesMetadata) :
    ChangedFilesMetadata :=
  { m with
    count := m.files.length
    added_count := m.added.length
    modified_count := m.modified.length
    removed_count := m.removed.length }

/-- Construction of a `ChangedFilesMetadata`: pydantic runs the
`sync_counts` validator after the fields are set, whatever count values the
caller passed. -/
def mkChangedFilesMetadata (count : Nat) (files added modified removed :
    List String) (ac mc rc : Nat) : ChangedFilesMetadata :=
  ChangedFilesMetadata.sync_counts
    ⟨count, files, added, ac, modified, mc, removed, rc⟩

/-! ## Extractor-level oracles

`ChangedFilesExtractor` sees `GitOperations` and `GitHubAPI` through the
methods below.  `has_git_repo` and `is_shallow_clone` are plain booleans:
both cache a boolean computed from file-system existence checks and
`is_shallow_clone` catches internally, so neither raises.  Every other
method may raise, modelled by `Except`; each is called at most once per
argument tuple within one `extract()` call, so a per-argument oracle is an
exact model. -/

/-- The `GitOperations` interface as used by the extractors. -/
structure GitOpsO where
  has_git_repo : Bool
  is_shallow_clone : Bool
  diff_commits_categorized : String → String → Except GitErr Categorized
  get_commit_files_categorized : String → Except GitErr Categorized
  diff_branches_categorized : String → String → Except GitErr Categorized
  fetch_branch : String → Option Nat → Except GitErr Unit
  deepenOp : Nat → Except GitErr Unit

/-- The `GitHubAPI` interface as used by the extractor:
`get_pr_files(repo_full_name, pr_number)`. -/
structure GitHubAPIO where
  get_pr_files : String → Nat → Except GitErr (List String)

/-- The configuration fields read by the extractors (`src/config.py`).
Optional string fields distinguish None from a value; Python truthiness
treats None and the empty string alike. -/
structure ConfigM where
  GITHUB_EVENT_NAME : String
  GITHUB_SHA : String
  GITHUB_REPOSITORY : String
  GITHUB_REF : Option String
  GITHUB_BASE_REF : Option String
  GITHUB_TOKEN : Option String
  CHANGE_DETECTION : String
  GIT_FETCH_DEPTH : Nat

/-- Python truthiness of an optional string: None and "" are falsy. -/
def truthy : Option String → Bool
  | none => false
  | some s => !(s == "")

/-- Results of the streaming reads of the event payload file.  Both helpers
(`_extract_push_shas_from_event` and the payload part of `_get_pr_number`)
catch every exception internally, so they are total: a missing or
unparsable payload yields `none`. -/
structure EventPayload where
  /-- Result of `_extract_push_shas_from_event`: the top-level `before` and
  `after` string fields of the payload, if present. -/
  pushShas : Option String × Option String
  /-- Result of the payload fallback in `_get_pr_number`: the first truthy
  `pull_request.number` item, if any. -/
  prNumberFromPayload : Option Nat

/-- Trace of accessor-primitive invocations performed by the extractors. -/
inductive Ev where
  | evDiffCommits (from_sha to_sha : String)
  | evCommitFiles (sha : String)
  | evDiffBranches (base head : String)
  | evFetchBranch (branch : String) (depth : Option Nat)
  | evDeepen (depth : Nat)
  | evApiGetPrFiles (repo : String) (number : Nat)
deriving DecidableEq, Repr

/-- Whether a trace event is an invocation of a local-history git
primitive (as opposed to a remote-API call). -/
def Ev.isGit : Ev → Bool
  | .evApiGetPrFiles _ _ => false
  | _ => true

/-- The all-zero null-commit sentinel GitHub puts in `before` on an
initial push. -/
def nullSha : String := "0000000000000000000000000000000000000000"

/-! ## ChangedFilesExtractor (`src/extractors/changed_files.py`)

Each function returns its Python return value paired with the trace of
primitive invocations it performed.  `Except`-valued primitive results are
matched exactly where the Python `try/except` blocks sit; a function with
a catch-all never propagates an error. -/

/-- The single-commit fallback of `_extract_push_event`: diff-tree of
`GITHUB_SHA`, exceptions caught by the surrounding try block. -/
def push_single_commit (g : GitOpsO) (cfg : ConfigM) :
    (List String × Categorized) × List Ev :=
  match g.get_commit_files_categorized cfg.GITHUB_SHA with
  | .ok c => ((c.allOf, c), [Ev.evCommitFiles cfg.GITHUB_SHA])
  | .error _ => (([], emptyCat), [Ev.evCommitFiles cfg.GITHUB_SHA])

/-- The body of `_extract_push_event` once the payload produced both a
`before` and an `after` value: the `if before and after` Python truthiness
test (both non-empty) and the null-sentinel test guard the range diff;
every other outcome is the single-commit fallback. -/
def push_with_shas (g : GitOpsO) (cfg : ConfigM) (before after : String) :
    (List String × Categorized) × List Ev :=
  if before == "" || after == "" then push_single_commit g cfg
  else if before != nullSha && before != "null" then
    match g.diff_commits_categorized before after with
    | .ok c => ((c.allOf, c), [Ev.evDiffCommits before after])
    | .error _ => (([], emptyCat), [Ev.evDiffCommits before after])
  else push_single_commit g cfg

/-- Model of `_extract_push_event`.  The guard (`git_ops` present and
`has_git_repo`) sits outside the try block; everything after it is wrapped
in `except Exception` returning the empty result. -/
def extract_push_event (ops : Option GitOpsO) (cfg : ConfigM)
    (pay : EventPayload) : (List String × Categorized) × List Ev :=
  match ops with
  | none => (([], emptyCat), [])
  | some g =>
      if !g.has_git_repo then (([], emptyCat), [])
      else
        match pay.pushShas with
        | (some before, some after) => push_with_shas g cfg before after
        | _ => push_single_commit g cfg

/-- The PR detection strategy chosen by `_determine_pr_strategy`. -/
inductive Strategy where
  | api
  | git
deriving DecidableEq, Repr

/-- Model of `_determine_pr_strategy`: explicit `CHANGE_DETECTION` settings
are respected, otherwise auto mode prefers the API when a client and a
token are available and falls back to git. -/
def determine_pr_strategy (cfg : ConfigM) (apiPresent : Bool)
    (ops : Option GitOpsO) : Option Strategy :=
  let gitAvailable : Bool :=
    match ops with
    | some g => g.has_git_repo
    | none => false
  if cfg.CHANGE_DETECTION == "github_api" then
    if apiPresent && truthy cfg.GITHUB_TOKEN then some Strategy.api else none
  else if cfg.CHANGE_DETECTION == "git" then
    if gitAvailable then some Strategy.git else none
  else
    if apiPresent && truthy cfg.GITHUB_TOKEN then some Strategy.api
    else if gitAvailable then some Strategy.git
    else none

/-- Value of `int()` on a matched digit run. -/
def digitsToNat (ds : List Char) : Nat :=
  ds.foldl (fun n c => n * 10 + (c.toNat - 48)) 0

/-- Model of the `re.match(r"refs/pull/(\d+)/", ref)` parse in
`_get_pr_number`, phrased on the character list of the ref: the ref must
start with `refs/pull/`, followed by one or more digits, followed by
`/`. -/
def parsePrNumberFromRef (ref : String) : Option Nat :=
  let pre := "refs/pull/".data
  if ref.data.take pre.length = pre then
    let rest := ref.data.drop pre.length
    let digits := rest.takeWhile Char.isDigit
    if digits ≠ [] ∧ (rest.drop digits.length).take 1 = ['/'] then
      some (digitsToNat digits)
    else none
  else none

/-- Model of `_get_pr_number`: parse the PR number out of `GITHUB_REF`
when it is truthy and matches; otherwise fall back to the event payload. -/
def get_pr_number (cfg : ConfigM) (pay : EventPayload) : Option Nat :=
  match cfg.GITHUB_REF with
  | some ref =>
      if ref != "" then
        match parsePrNumberFromRef ref with
        | some n => some n
        | none => pay.prNumberFromPayload
      else pay.prNumberFromPayload
  | none => pay.prNumberFromPayload

/-- Model of `_extract_pr_api`: resolve the PR number (`0` is falsy in
Python, hence treated as missing), call `get_pr_files`, and classify every
returned path as modified.  The try block catches any API failure. -/
def extract_pr_api (cfg : ConfigM) (api : Option GitHubAPIO)
    (pay : EventPayload) : (List String × Categorized) × List Ev :=
  match api with
  | none => (([], emptyCat), [])
  | some a =>
      match get_pr_number cfg pay with
      | none => (([], emptyCat), [])
      | some n =>
          if n == 0 then (([], emptyCat), [])
          else
            match a.get_pr_files cfg.GITHUB_REPOSITORY n with
            | .ok files =>
                ((files, ⟨[], files, []⟩),
                  [Ev.evApiGetPrFiles cfg.GITHUB_REPOSITORY n])
            | .error _ =>
                (([], emptyCat), [Ev.evApiGetPrFiles cfg.GITHUB_REPOSITORY n])

/-- The second fallback strategy of `_extract_pr_git_fallback`: the
diff-tree of `HEAD`, reached after the `HEAD^1` strategy produced nothing
or raised; its own exceptions are caught too. -/
def fallback_diff_tree (g : GitOpsO) : (List String × Categorized) × List Ev :=
  match g.get_commit_files_categorized "HEAD" with
  | .ok c =>
      if c.allOf.isEmpty then
        (([], emptyCat), [Ev.evDiffCommits "HEAD^1" "HEAD", Ev.evCommitFiles "HEAD"])
      else
        ((c.allOf, c), [Ev.evDiffCommits "HEAD^1" "HEAD", Ev.evCommitFiles "HEAD"])
  | .error _ =>
      (([], emptyCat), [Ev.evDiffCommits "HEAD^1" "HEAD", Ev.evCommitFiles "HEAD"])

/-- Model of `_extract_pr_git_fallback`: try `HEAD^1..HEAD` then the
diff-tree of `HEAD`, stopping at the first strategy that yields a
non-empty file list; each strategy's exceptions are caught. -/
def extract_pr_git_fallback (ops : Option GitOpsO) :
    (List String × Categorized) × List Ev :=
  match ops with
  | none => (([], emptyCat), [])
  | some g =>
      match g.diff_commits_categorized "HEAD^1" "HEAD" with
      | .ok c =>
          if c.allOf.isEmpty then fallback_diff_tree g
          else ((c.allOf, c), [Ev.evDiffCommits "HEAD^1" "HEAD"])
      | .error _ => fallback_diff_tree g

/-- The shallow-clone repair sequence of `_extract_pr_git`: on a shallow
clone, a depth-1 fetch of the base branch, then a deepen by the configured
depth only when the fetch raised; both failures are swallowed.  Returns
the trace of the attempted operations. -/
def pr_shallow_fetch (g : GitOpsO) (cfg : ConfigM) (br : String) : List Ev :=
  if g.is_shallow_clone then
    match g.fetch_branch br (some 1) with
    | .ok _ => [Ev.evFetchBranch br (some 1)]
    | .error _ =>
        [Ev.evFetchBranch br (some 1), Ev.evDeepen cfg.GIT_FETCH_DEPTH]
  else []

/-- Model of `_extract_pr_git`: requires a base ref (else fallback); on a
shallow clone first tries a depth-1 fetch of the base branch, then a
deepen if the fetch raised, proceeding regardless of their outcomes; then
the three-dot diff against `origin/<base>`, falling back when it yields no
files, and returning empty if it raises. -/
def extract_pr_git (cfg : ConfigM) (ops : Option GitOpsO) :
    (List String × Categorized) × List Ev :=
  match ops with
  | none => (([], emptyCat), [])
  | some g =>
      if !truthy cfg.GITHUB_BASE_REF then extract_pr_git_fallback ops
      else
        let br := "origin/" ++ (cfg.GITHUB_BASE_REF.getD "")
        let fetchEvs := pr_shallow_fetch g cfg br
        match g.diff_branches_categorized br "HEAD" with
        | .ok c =>
            if c.allOf.isEmpty then
              let fb := extract_pr_git_fallback ops
              (fb.1, fetchEvs ++ [Ev.evDiffBranches br "HEAD"] ++ fb.2)
            else ((c.allOf, c), fetchEvs ++ [Ev.evDiffBranches br "HEAD"])
        | .error _ =>
            (([], emptyCat), fetchEvs ++ [Ev.evDiffBranches br "HEAD"])

/-- Model of `_extract_pull_request`: pick a strategy once and delegate;
with no viable strategy return the empty result. -/
def extract_pull_request (cfg : ConfigM) (api : Option GitHubAPIO)
    (ops : Option GitOpsO) (pay : EventPayload) :
    (List String × Categorized) × List Ev :=
  match determine_pr_strategy cfg api.isSome ops with
  | some Strategy.api => extract_pr_api cfg api pay
  | some Strategy.git => extract_pr_git cfg ops
  | none => (([], emptyCat), [])

/-- The event-name dispatch at the top of `ChangedFilesExtractor.extract`:
push and pull-request events delegate, anything else yields the empty
result without touching either accessor. -/
def extract_result (cfg : ConfigM) (api : Option GitHubAPIO)
    (ops : Option GitOpsO) (pay : EventPayload) :
    (List String × Categorized) × List Ev :=
  if cfg.GITHUB_EVENT_NAME == "push" then extract_push_event ops cfg pay
  else if cfg.GITHUB_EVENT_NAME == "pull_request"
      || cfg.GITHUB_EVENT_NAME == "pull_request_target" then
    extract_pull_request cfg api ops pay
  else (([], emptyCat), [])

/-- Model of `ChangedFilesExtractor.extract`: dispatch on the event name
and build the `ChangedFilesMetadata` (count fields are then overwritten by
`sync_counts`). -/
def ChangedFilesExtractor.extract (cfg : ConfigM) (api : Option GitHubAPIO)
    (ops : Option GitOpsO) (pay : EventPayload) :
    ChangedFilesMetadata × List Ev :=
  let res := extract_result cfg api ops pay
  (mkChangedFilesMetadata res.1.1.length res.1.1 res.1.2.added
    res.1.2.modified res.1.2.removed 0 0 0, res.2)

/-- Model of `ChangedFilesLastCommitExtractor.extract`
(`src/extractors/changed_files_last_commit.py`): the categorized diff of
`HEAD`, with `files = sorted(set(added + modified + removed))`; empty
metadata when no repository is available or the call raises. -/
def ChangedFilesLastCommitExtractor.extract (ops : Option GitOpsO) :
    ChangedFilesMetadata × List Ev :=
  let empty := mkChangedFilesMetadata 0 [] [] [] [] 0 0 0
  match ops with
  | none => (empty, [])
  | some g =>
      if !g.has_git_repo then (empty, [])
      else
        match g.get_commit_files_categorized "HEAD" with
        | .error _ => (empty, [Ev.evCommitFiles "HEAD"])
        | .ok c =>
            let files := sortedDedup (c.added ++ c.modified ++ c.removed)
            (mkChangedFilesMetadata files.length files c.added c.modified
              c.removed 0 0 0, [Ev.evCommitFiles "HEAD"])

/-- Extractor-level view of a concrete `GitOperations` instance: the
categorized diff methods are the `GO` models above (total, so they always
return `.ok`), fetch and deepen report the underlying result. -/
def GitOpsO.ofRepo (hasRepo shallow : Bool) (r : RepoO) (st : MBState) :
    GitOpsO where
  has_git_repo := hasRepo
  is_shallow_clone := shallow
  diff_commits_categorized := fun a b =>
    .ok (GO.diff_commits_categorized r a b)
  get_commit_files_categorized := fun s =>
    .ok (GO.get_commit_files_categorized r s)
  diff_branches_categorized := fun b h =>
    .ok (GO.diff_branches_categorized r st b h).1
  fetch_branch := fun br d => (GO.fetch_branch r st br d).1
  deepenOp := fun d => (GO.deepen r st d).1

/-- An extractor-level oracle only hands out well-formed categorized
results. -/
def GitOpsO.WFOutputs (g : GitOpsO) : Prop :=
  (∀ a b c, g.diff_commits_categorized a b = Except.ok c → c.WF) ∧
  (∀ s c, g.get_commit_files_categorized s = Except.ok c → c.WF) ∧
  (∀ a b c, g.diff_branches_categorized a b = Except.ok c → c.WF)

/-! ## Characterization of the extractor results

Every non-empty result of a git-backed path is, verbatim, a categorized
dict successfully returned by one of the three `GitOperations` diff
methods. -/

/-- A categorized dict obtained from a successful call of one of the three
categorized diff primitives of the handed-in `GitOperations` instance. -/
def FromOps (ops : Option GitOpsO) (c : Categorized) : Prop :=
  ∃ g, ops = some g ∧
    ((∃ a b, g.diff_commits_categorized a b = Except.ok c) ∨
     (∃ s, g.get_commit_files_categorized s = Except.ok c) ∨
     (∃ a b, g.diff_branches_categorized a b = Except.ok c))

/-- A `GitOperations` oracle every fallible primitive of which raises. -/
def GitOpsO.AllFail (g : GitOpsO) : Prop :=
  (∀ a b, ∃ e, g.diff_commits_categorized a b = Except.error e) ∧
  (∀ s, ∃ e, g.get_commit_files_categorized s = Except.error e) ∧
  (∀ a b, ∃ e, g.diff_branches_categorized a b = Except.error e) ∧
  (∀ br d, ∃ e, g.fetch_branch br d = Except.error e) ∧
  (∀ d, ∃ e, g.deepenOp d = Except.error e)

/-- A `GitHubAPI` oracle whose file-listing call always raises. -/
def GitHubAPIO.AllFail (a : GitHubAPIO) : Prop :=
  ∀ repo n, ∃ e, a.get_pr_files repo n = Except.error e

/-! ## ChangeSet invariants (C1) -/

/-- The ChangeSet invariants claimed by the specification, as amended:
`files` is set-equal to the union of the three categories, each category
list is duplicate-free, and no path appears in more than one category. -/
def metaInvariants (m : ChangedFilesMetadata) : Prop :=
  (∀ p, p ∈ m.files ↔ p ∈ m.added ∨ p ∈ m.modified ∨ p ∈ m.removed) ∧
  m.added.Nodup ∧ m.modified.Nodup ∧ m.removed.Nodup ∧
  (∀ p ∈ m.added, p ∉ m.modified) ∧ (∀ p ∈ m.added, p ∉ m.removed) ∧
  (∀ p ∈ m.modified, p ∉ m.removed)

/-! ## Concrete fixtures for counterexamples and witnesses -/

/-- A push-event configuration. -/
def cfgPushW : ConfigM :=
  ⟨"push", "headsha", "owner/repo", none, none, none, "auto", 15⟩

/-- A pull-request configuration in auto mode with a token. -/
def cfgPrAutoW : ConfigM :=
  ⟨"pull_request", "headsha", "owner/repo", some "refs/pull/7/merge",
    some "main", some "tok", "auto", 15⟩

/-- A pull-request configuration in auto mode without a token. -/
def cfgPrNoTokW : ConfigM :=
  ⟨"pull_request", "headsha", "owner/repo", some "refs/pull/7/merge",
    some "main", none, "auto", 15⟩

/-- An event payload with no usable fields. -/
def payN : EventPayload := ⟨(none, none), none⟩

/-- A push payload with a valid before/after pair. -/
def payC1 : EventPayload := ⟨(some "aaaa", some "bbbb"), none⟩

/-- A push payload whose `before` is present but empty. -/
def payC3 : EventPayload := ⟨(some "", some "bbbb"), none⟩

/-- A repository whose every diff adds `b` and deletes `a`. -/
def rW : RepoO where
  repoPresent := true
  resolve := fun s => Except.ok s
  parentsOf := fun _ => ["par"]
  treeOf := fun _ => []
  diffOf := fun _ _ => Except.ok
    [⟨none, some "b", true, false, false⟩,
     ⟨some "a", none, false, true, false⟩]
  merge_base := fun _ _ => Except.ok ["mb"]
  fetchRes := fun _ _ => Except.ok ()
  deepenRes := fun _ => Except.ok ()

/-- A repository whose diffs are all empty. -/
def rEmptyW : RepoO where
  repoPresent := true
  resolve := fun s => Except.ok s
  parentsOf := fun _ => ["par"]
  treeOf := fun _ => []
  diffOf := fun _ _ => Except.ok []
  merge_base := fun _ _ => Except.ok ["mb"]
  fetchRes := fun _ _ => Except.ok ()
  deepenRes := fun _ => Except.ok ()

/-- The extractor-level view of `rW`. -/
def opsC1 : GitOpsO := GitOpsO.ofRepo true false rW ⟨[]⟩

/-- The extractor-level view of `rEmptyW`. -/
def opsEmptyW : GitOpsO := GitOpsO.ofRepo true false rEmptyW ⟨[]⟩

/-- A shallow-clone oracle whose fetch raises. -/
def gShFailW : GitOpsO where
  has_git_repo := true
  is_shallow_clone := true
  diff_commits_categorized := fun _ _ => Except.ok ⟨["b"], [], ["a"]⟩
  get_commit_files_categorized := fun _ => Except.ok ⟨["x"], [], []⟩
  diff_branches_categorized := fun _ _ => Except.ok ⟨[], [], []⟩
  fetch_branch := fun _ _ => Except.error ⟨"f"⟩
  deepenOp := fun _ => Except.error ⟨"d"⟩

/-- An oracle on which every fallible git primitive raises. -/
def gFailW : GitOpsO where
  has_git_repo := true
  is_shallow_clone := true
  diff_commits_categorized := fun _ _ => Except.error ⟨"x"⟩
  get_commit_files_categorized := fun _ => Except.error ⟨"x"⟩
  diff_branches_categorized := fun _ _ => Except.error ⟨"x"⟩
  fetch_branch := fun _ _ => Except.error ⟨"x"⟩
  deepenOp := fun _ => Except.error ⟨"x"⟩

/-- An API client whose file-listing call always raises. -/
def apiFailW : GitHubAPIO := ⟨fun _ _ => Except.error ⟨"x"⟩⟩

/-- An API client returning a fixed file list. -/
def apiOkW : GitHubAPIO := ⟨fun _ _ => Except.ok ["f1", "f2"]⟩

/-- An oracle whose `HEAD^1..HEAD` diff succeeds with zero files while the
diff-tree of `HEAD` yields one: the empty-success delegation scenario of
the fallback chain. -/
def gEmpty1W : GitOpsO where
  has_git_repo := true
  is_shallow_clone := false
  diff_commits_categorized := fun _ _ => Except.ok ⟨[], [], []⟩
  get_commit_files_categorized := fun _ => Except.ok ⟨["x"], [], []⟩
  diff_branches_categorized := fun _ _ => Except.ok ⟨[], [], []⟩
  fetch_branch := fun _ _ => Except.ok ()
  deepenOp := fun _ => Except.ok ()

theorem mem_insertSorted (s a : String) (l : List String) :
    a ∈ insertSorted s l ↔ a = s ∨ a ∈ l := by
  induction l with
  | nil => simp [insertSorted]
  | cons t ts ih =>
      by_cases h1 : s < t
      · simp [insertSorted, h1]
      · by_cases h2 : s = t
        · subst h2
          have he : insertSorted s (s :: ts) = s :: ts := by
            simp [insertSorted, h1]
          rw [he, List.mem_cons]
          tauto
        · simp only [insertSorted, if_neg h1, if_neg h2, List.mem_cons, ih]
          tauto

theorem sorted_insertSorted (s : String) (l : List String)
    (h : l.Sorted (· < ·)) : (insertSorted s l).Sorted (· < ·) := by
  induction l with
  | nil => simp [insertSorted]
  | cons t ts ih =>
      rw [List.sorted_cons] at h
      obtain ⟨ht, hts⟩ := h
      by_cases h1 : s < t
      · simp only [insertSorted, if_pos h1]
        refine List.sorted_cons.mpr ⟨?_, List.sorted_cons.mpr ⟨ht, hts⟩⟩
        intro b hb
        rcases List.mem_cons.mp hb with hb | hb
        · exact hb ▸ h1
        · exact lt_trans h1 (ht b hb)
      · by_cases h2 : s = t
        · subst h2
          have he : insertSorted s (s :: ts) = s :: ts := by
            simp [insertSorted, h1]
          rw [he]
          exact List.sorted_cons.mpr ⟨ht, hts⟩
        · simp only [insertSorted, if_neg h1, if_neg h2]
          refine List.sorted_cons.mpr ⟨?_, ih hts⟩
          intro b hb
          rcases (mem_insertSorted s b ts).mp hb with hb | hb
          · exact hb ▸ (not_lt.mp h1).lt_of_ne (Ne.symm h2)
          · exact ht b hb

theorem sortedDedup_sorted (l : List String) :
    (sortedDedup l).Sorted (· < ·) := by
  induction l with
  | nil => simp [sortedDedup]
  | cons s ts ih => exact sorted_insertSorted s _ ih

theorem mem_sortedDedup (a : String) (l : List String) :
    a ∈ sortedDedup l ↔ a ∈ l := by
  induction l with
  | nil => simp [sortedDedup]
  | cons s ts ih =>
      simp only [sortedDedup, List.foldr_cons] at *
      rw [mem_insertSorted, ih, List.mem_cons]

theorem sortedDedup_nodup (l : List String) : (sortedDedup l).Nodup :=
  (sortedDedup_sorted l).imp ne_of_lt

theorem mem_bucketOf (c : Cat) (ds : List DiffRecord) (p : String) :
    p ∈ bucketOf c ds ↔ ∃ d ∈ ds, recordCat d = some (c, p) := by
  simp only [bucketOf, List.mem_filterMap]
  constructor
  · rintro ⟨d, hd, h⟩
    refine ⟨d, hd, ?_⟩
    rcases hc : recordCat d with _ | ⟨c', q⟩ <;> rw [hc] at h
    · exact absurd h (by simp)
    · by_cases hcc : c' = c
      · subst hcc
        have hqp : q = p := by simpa using h
        rw [← hqp]
      · simp [hcc] at h
  · rintro ⟨d, hd, h⟩
    exact ⟨d, hd, by rw [h]; simp⟩

theorem emptyCat_wf : emptyCat.WF := by
  refine ⟨?_, ?_, ?_, ?_, ?_, ?_⟩ <;> simp [emptyCat]

theorem categorizeDiffs_disjoint (ds : List DiffRecord)
    (h : DiffsFunctional ds) (c1 c2 : Cat) (hne : c1 ≠ c2) (p : String)
    (h1 : p ∈ bucketOf c1 ds) (h2 : p ∈ bucketOf c2 ds) : False := by
  obtain ⟨d1, hd1, hr1⟩ := (mem_bucketOf c1 ds p).mp h1
  obtain ⟨d2, hd2, hr2⟩ := (mem_bucketOf c2 ds p).mp h2
  exact hne (h d1 hd1 d2 hd2 c1 c2 p hr1 hr2)

theorem categorizeDiffs_wf (ds : List DiffRecord) (h : DiffsFunctional ds) :
    (categorizeDiffs ds).WF := by
  refine ⟨sortedDedup_sorted _, sortedDedup_sorted _, sortedDedup_sorted _,
    ?_, ?_, ?_⟩ <;>
    intro p hp hq <;>
    simp only [categorizeDiffs] at hp hq <;>
    rw [mem_sortedDedup] at hp hq
  · exact categorizeDiffs_disjoint ds h Cat.addedC Cat.modifiedC (by simp) p hp hq
  · exact categorizeDiffs_disjoint ds h Cat.addedC Cat.removedC (by simp) p hp hq
  · exact categorizeDiffs_disjoint ds h Cat.modifiedC Cat.removedC (by simp) p hp hq

theorem perm_insertSortedKeep (s : String) (l : List String) :
    List.Perm (insertSortedKeep s l) (s :: l) := by
  induction l with
  | nil => simp [insertSortedKeep]
  | cons t ts ih =>
      by_cases h : s ≤ t
      · simp [insertSortedKeep, h]
      · simp only [insertSortedKeep, if_neg h]
        exact (ih.cons t).trans (List.Perm.swap s t ts)

theorem pySorted_perm (l : List String) : List.Perm (pySorted l) l := by
  induction l with
  | nil => simp [pySorted]
  | cons s ts ih =>
      simp only [pySorted, List.foldr_cons] at *
      exact (perm_insertSortedKeep s _).trans (ih.cons s)

theorem sorted_insertSortedKeep (s : String) (l : List String)
    (h : l.Sorted (· ≤ ·)) : (insertSortedKeep s l).Sorted (· ≤ ·) := by
  induction l with
  | nil => simp [insertSortedKeep]
  | cons t ts ih =>
      rw [List.sorted_cons] at h
      obtain ⟨ht, hts⟩ := h
      by_cases h1 : s ≤ t
      · simp only [insertSortedKeep, if_pos h1]
        refine List.sorted_cons.mpr ⟨?_, List.sorted_cons.mpr ⟨ht, hts⟩⟩
        intro b hb
        rcases List.mem_cons.mp hb with hb | hb
        · exact hb ▸ h1
        · exact le_trans h1 (ht b hb)
      · simp only [insertSortedKeep, if_neg h1]
        refine List.sorted_cons.mpr ⟨?_, ih hts⟩
        intro b hb
        rcases List.mem_cons.mp ((perm_insertSortedKeep s ts).mem_iff.mp hb)
          with hb | hb
        · exact hb ▸ le_of_lt (not_le.mp h1)
        · exact ht b hb

theorem pySorted_sorted (l : List String) : (pySorted l).Sorted (· ≤ ·) := by
  induction l with
  | nil => simp [pySorted]
  | cons s ts ih => exact sorted_insertSortedKeep s _ ih

theorem pySorted_sorted_lt (l : List String) (h : l.Nodup) :
    (pySorted l).Sorted (· < ·) := by
  have hnd : (pySorted l).Nodup := ((pySorted_perm l).nodup_iff).mpr h
  have hle := pySorted_sorted l
  exact (hle.and hnd).imp (fun hab => lt_of_le_of_ne hab.1 hab.2)

theorem afterMergeBase_state (r : RepoO) (bc hc : String) (mb : Option String)
    (st : MBState) (evs : List GitEv) :
    (GO.afterMergeBase r bc hc mb st evs).2 = (st, evs) := by
  unfold GO.afterMergeBase
  rcases hd : GO.mbDiff r bc hc mb with e | ds <;> rfl

theorem GO_get_commit_files_categorized_wf (r : RepoO) (hr : r.WF)
    (sha : String) : (GO.get_commit_files_categorized r sha).WF := by
  unfold GO.get_commit_files_categorized
  rcases hrp : r.repoPresent with _ | _
  · simpa using emptyCat_wf
  · rcases hres : r.resolve sha with e | cid
    · simpa using emptyCat_wf
    · rcases hp : r.parentsOf cid with _ | ⟨parent, rest⟩
      · have hw : (Categorized.mk (pySorted (r.treeOf cid)) [] []).WF :=
          ⟨pySorted_sorted_lt _ (hr.1 cid), by simp, by simp, by simp,
            by simp, by simp⟩
        simpa [hp] using hw
      · rcases hd : r.diffOf parent cid with e | ds
        · simpa [hp, hd] using emptyCat_wf
        · simpa [hp, hd] using categorizeDiffs_wf ds (hr.2 parent cid ds hd)

theorem GO_diff_commits_categorized_wf (r : RepoO) (hr : r.WF)
    (from_sha to_sha : String) :
    (GO.diff_commits_categorized r from_sha to_sha).WF := by
  unfold GO.diff_commits_categorized
  rcases hrp : r.repoPresent with _ | _
  · simpa using emptyCat_wf
  · rcases hf : r.resolve from_sha with e | fc
    · simpa using emptyCat_wf
    · rcases ht : r.resolve to_sha with e | tc
      · simpa using emptyCat_wf
      · rcases hd : r.diffOf fc tc with e | ds
        · simpa [hd] using emptyCat_wf
        · simpa [hd] using categorizeDiffs_wf ds (hr.2 fc tc ds hd)

theorem mbDiff_functional (r : RepoO) (hr : r.WF) (bc hc : String)
    (mb : Option String) (ds : List DiffRecord)
    (hd : GO.mbDiff r bc hc mb = Except.ok ds) : DiffsFunctional ds := by
  rcases mb with _ | m
  · exact hr.2 bc hc ds hd
  · exact hr.2 m hc ds hd

theorem afterMergeBase_wf (r : RepoO) (hr : r.WF) (bc hc : String)
    (mb : Option String) (st : MBState) (evs : List GitEv) :
    (GO.afterMergeBase r bc hc mb st evs).1.WF := by
  unfold GO.afterMergeBase
  rcases hd : GO.mbDiff r bc hc mb with e | ds
  · exact emptyCat_wf
  · exact categorizeDiffs_wf ds (mbDiff_functional r hr bc hc mb ds hd)

theorem GO_diff_branches_categorized_wf (r : RepoO) (hr : r.WF)
    (st : MBState) (base head : String) :
    (GO.diff_branches_categorized r st base head).1.WF := by
  unfold GO.diff_branches_categorized
  rcases hrp : r.repoPresent with _ | _
  · simpa using emptyCat_wf
  · rcases hb : r.resolve base with e | bc
    · simpa using emptyCat_wf
    · rcases hh : r.resolve head with e | hc
      · simpa using emptyCat_wf
      · rcases hl : st.lookup (cacheKey base head) with _ | mb
        · rcases hmb : r.merge_base bc hc with e | mbs
          · simpa [hl, hmb] using emptyCat_wf
          · simpa [hl, hmb] using afterMergeBase_wf r hr bc hc mbs.head?
              ⟨(cacheKey base head, mbs.head?) :: st.cache⟩
              [GitEv.mergeBaseCompute base head]
        · simpa [hl] using afterMergeBase_wf r hr bc hc mb st []

theorem ofRepo_WFOutputs (hasRepo shallow : Bool) (r : RepoO) (hr : r.WF)
    (st : MBState) : (GitOpsO.ofRepo hasRepo shallow r st).WFOutputs := by
  refine ⟨?_, ?_, ?_⟩
  · intro a b c hc
    have : GO.diff_commits_categorized r a b = c := by
      simpa [GitOpsO.ofRepo] using hc
    exact this ▸ GO_diff_commits_categorized_wf r hr a b
  · intro s c hc
    have : GO.get_commit_files_categorized r s = c := by
      simpa [GitOpsO.ofRepo] using hc
    exact this ▸ GO_get_commit_files_categorized_wf r hr s
  · intro a b c hc
    have : (GO.diff_branches_categorized r st a b).1 = c := by
      simpa [GitOpsO.ofRepo] using hc
    exact this ▸ GO_diff_branches_categorized_wf r hr st a b

theorem push_single_commit_cases (g : GitOpsO) (cfg : ConfigM) :
    (push_single_commit g cfg).1 = ([], emptyCat) ∨
      ∃ c, g.get_commit_files_categorized cfg.GITHUB_SHA = Except.ok c ∧
        (push_single_commit g cfg).1 = (c.allOf, c) := by
  unfold push_single_commit
  rcases hc : g.get_commit_files_categorized cfg.GITHUB_SHA with e | c
  · left
    rfl
  · right
    exact ⟨c, rfl, rfl⟩

theorem extract_push_event_cases (ops : Option GitOpsO) (cfg : ConfigM)
    (pay : EventPayload) :
    (extract_push_event ops cfg pay).1 = ([], emptyCat) ∨
      ∃ c, FromOps ops c ∧
        (extract_push_event ops cfg pay).1 = (c.allOf, c) := by
  rcases ops with _ | g
  · left
    rfl
  · have hsingle : (push_single_commit g cfg).1 = ([], emptyCat) ∨
        ∃ c, FromOps (some g) c ∧
          (push_single_commit g cfg).1 = (c.allOf, c) := by
      rcases push_single_commit_cases g cfg with h | ⟨c, hc, h⟩
      · exact Or.inl h
      · exact Or.inr ⟨c, ⟨g, rfl, Or.inr (Or.inl ⟨_, hc⟩)⟩, h⟩
    have hshas : ∀ before after,
        (push_with_shas g cfg before after).1 = ([], emptyCat) ∨
          ∃ c, FromOps (some g) c ∧
            (push_with_shas g cfg before after).1 = (c.allOf, c) := by
      intro before after
      unfold push_with_shas
      split_ifs with hemp hnn
      · exact hsingle
      · rcases hd : g.diff_commits_categorized before after with e | c
        · left
          rfl
        · right
          exact ⟨c, ⟨g, rfl, Or.inl ⟨before, after, hd⟩⟩, rfl⟩
      · exact hsingle
    simp only [extract_push_event]
    rcases hg : g.has_git_repo with _ | _
    · left
      rfl
    · rcases hps : pay.pushShas with ⟨_ | before, _ | after⟩
      · exact hsingle
      · exact hsingle
      · exact hsingle
      · exact hshas before after

theorem fallback_diff_tree_cases (g : GitOpsO) :
    (fallback_diff_tree g).1 = ([], emptyCat) ∨
      ∃ c, g.get_commit_files_categorized "HEAD" = Except.ok c ∧
        (fallback_diff_tree g).1 = (c.allOf, c) := by
  unfold fallback_diff_tree
  rcases hc : g.get_commit_files_categorized "HEAD" with e | c
  · left
    rfl
  · dsimp only
    split_ifs with he
    · left
      rfl
    · right
      exact ⟨c, rfl, rfl⟩

theorem extract_pr_git_fallback_cases (ops : Option GitOpsO) :
    (extract_pr_git_fallback ops).1 = ([], emptyCat) ∨
      ∃ c, FromOps ops c ∧
        (extract_pr_git_fallback ops).1 = (c.allOf, c) := by
  rcases ops with _ | g
  · left
    rfl
  · have htree : (fallback_diff_tree g).1 = ([], emptyCat) ∨
        ∃ c, FromOps (some g) c ∧ (fallback_diff_tree g).1 = (c.allOf, c) := by
      rcases fallback_diff_tree_cases g with h | ⟨c, hc, h⟩
      · exact Or.inl h
      · exact Or.inr ⟨c, ⟨g, rfl, Or.inr (Or.inl ⟨_, hc⟩)⟩, h⟩
    simp only [extract_pr_git_fallback]
    rcases hd : g.diff_commits_categorized "HEAD^1" "HEAD" with e | c
    · exact htree
    · dsimp only
      split_ifs with he
      · exact htree
      · right
        exact ⟨c, ⟨g, rfl, Or.inl ⟨_, _, hd⟩⟩, rfl⟩

theorem extract_pr_api_cases (cfg : ConfigM) (api : Option GitHubAPIO)
    (pay : EventPayload) :
    (extract_pr_api cfg api pay).1 = ([], emptyCat) ∨
      ∃ a n fs, api = some a ∧
        a.get_pr_files cfg.GITHUB_REPOSITORY n = Except.ok fs ∧
        (extract_pr_api cfg api pay).1 = (fs, ⟨[], fs, []⟩) := by
  rcases api with _ | a
  · left
    rfl
  · simp only [extract_pr_api]
    rcases hn : get_pr_number cfg pay with _ | n
    · left
      rfl
    · dsimp only
      split_ifs with h0
      · left
        rfl
      · rcases hf : a.get_pr_files cfg.GITHUB_REPOSITORY n with e | fs
        · left
          rfl
        · right
          exact ⟨a, n, fs, rfl, hf, rfl⟩

theorem extract_pr_git_cases (cfg : ConfigM) (ops : Option GitOpsO) :
    (extract_pr_git cfg ops).1 = ([], emptyCat) ∨
      ∃ c, FromOps ops c ∧ (extract_pr_git cfg ops).1 = (c.allOf, c) := by
  rcases ops with _ | g
  · left
    rfl
  · simp only [extract_pr_git]
    split_ifs with hbase
    · exact extract_pr_git_fallback_cases (some g)
    · rcases hd : g.diff_branches_categorized
          ("origin/" ++ cfg.GITHUB_BASE_REF.getD "") "HEAD" with e | c
      · left
        rfl
      · dsimp only
        split_ifs with he
        · rcases extract_pr_git_fallback_cases (some g) with h | ⟨c', hc', h⟩
          · left
            exact h
          · right
            exact ⟨c', hc', h⟩
        · right
          exact ⟨c, ⟨g, rfl, Or.inr (Or.inr ⟨_, _, hd⟩)⟩, rfl⟩

theorem extract_pull_request_cases (cfg : ConfigM) (api : Option GitHubAPIO)
    (ops : Option GitOpsO) (pay : EventPayload) :
    (extract_pull_request cfg api ops pay).1 = ([], emptyCat) ∨
      (∃ c, FromOps ops c ∧
        (extract_pull_request cfg api ops pay).1 = (c.allOf, c)) ∨
      (∃ a n fs, api = some a ∧
        a.get_pr_files cfg.GITHUB_REPOSITORY n = Except.ok fs ∧
        (extract_pull_request cfg api ops pay).1 = (fs, ⟨[], fs, []⟩)) := by
  unfold extract_pull_request
  rcases hs : determine_pr_strategy cfg api.isSome ops with _ | s
  · left
    rfl
  · rcases s with _ | _
    · rcases extract_pr_api_cases cfg api pay with h | ⟨a, n, fs, ha, hf, h⟩
      · left
        exact h
      · right
        right
        exact ⟨a, n, fs, ha, hf, h⟩
    · rcases extract_pr_git_cases cfg ops with h | ⟨c, hc, h⟩
      · left
        exact h
      · right
        left
        exact ⟨c, hc, h⟩

theorem extract_result_cases (cfg : ConfigM) (api : Option GitHubAPIO)
    (ops : Option GitOpsO) (pay : EventPayload) :
    (extract_result cfg api ops pay).1 = ([], emptyCat) ∨
      (∃ c, FromOps ops c ∧
        (extract_result cfg api ops pay).1 = (c.allOf, c)) ∨
      (∃ a n fs, api = some a ∧
        a.get_pr_files cfg.GITHUB_REPOSITORY n = Except.ok fs ∧
        (extract_result cfg api ops pay).1 = (fs, ⟨[], fs, []⟩)) := by
  unfold extract_result
  split_ifs with h1 h2
  · rcases extract_push_event_cases ops cfg pay with h | ⟨c, hc, h⟩
    · left
      exact h
    · right
      left
      exact ⟨c, hc, h⟩
  · exact extract_pull_request_cases cfg api ops pay
  · left
    rfl

/-! ## Dispatch lemmas -/

theorem extract_metadata (cfg : ConfigM) (api : Option GitHubAPIO)
    (ops : Option GitOpsO) (pay : EventPayload) :
    (ChangedFilesExtractor.extract cfg api ops pay).1 =
      mkChangedFilesMetadata (extract_result cfg api ops pay).1.1.length
        (extract_result cfg api ops pay).1.1
        (extract_result cfg api ops pay).1.2.added
        (extract_result cfg api ops pay).1.2.modified
        (extract_result cfg api ops pay).1.2.removed 0 0 0 := rfl

theorem extract_trace (cfg : ConfigM) (api : Option GitHubAPIO)
    (ops : Option GitOpsO) (pay : EventPayload) :
    (ChangedFilesExtractor.extract cfg api ops pay).2 =
      (extract_result cfg api ops pay).2 := rfl

theorem extract_result_push (cfg : ConfigM) (api : Option GitHubAPIO)
    (ops : Option GitOpsO) (pay : EventPayload)
    (hev : cfg.GITHUB_EVENT_NAME = "push") :
    extract_result cfg api ops pay = extract_push_event ops cfg pay := by
  unfold extract_result
  rw [hev]
  rfl

theorem extract_result_pr (cfg : ConfigM) (api : Option GitHubAPIO)
    (ops : Option GitOpsO) (pay : EventPayload)
    (hev : cfg.GITHUB_EVENT_NAME = "pull_request" ∨
      cfg.GITHUB_EVENT_NAME = "pull_request_target") :
    extract_result cfg api ops pay = extract_pull_request cfg api ops pay := by
  unfold extract_result
  rcases hev with h | h <;> rw [h] <;> rfl

theorem extract_pull_request_api (cfg : ConfigM) (api : Option GitHubAPIO)
    (ops : Option GitOpsO) (pay : EventPayload)
    (hs : determine_pr_strategy cfg api.isSome ops = some Strategy.api) :
    extract_pull_request cfg api ops pay = extract_pr_api cfg api pay := by
  unfold extract_pull_request
  rw [hs]

theorem extract_pull_request_git (cfg : ConfigM) (api : Option GitHubAPIO)
    (ops : Option GitOpsO) (pay : EventPayload)
    (hs : determine_pr_strategy cfg api.isSome ops = some Strategy.git) :
    extract_pull_request cfg api ops pay = extract_pr_git cfg ops := by
  unfold extract_pull_request
  rw [hs]

theorem extract_pull_request_none (cfg : ConfigM) (api : Option GitHubAPIO)
    (ops : Option GitOpsO) (pay : EventPayload)
    (hs : determine_pr_strategy cfg api.isSome ops = none) :
    extract_pull_request cfg api ops pay = (([], emptyCat), []) := by
  unfold extract_pull_request
  rw [hs]

/-! ## Claim theorems -/

/-- C9: for every `ChangedFilesMetadata` after construction, `count`
equals the length of `files`, `added_count` the length of `added`,
`modified_count` the length of `modified` and `removed_count` the length
of `removed`, regardless of the count values passed to the constructor:
the `sync_counts` model validator overwrites them. -/
theorem C9_sync_counts_overwrite (count ac mc rc : Nat)
    (files added modified removed : List String) :
    (mkChangedFilesMetadata count files added modified removed
        ac mc rc).count = files.length ∧
    (mkChangedFilesMetadata count files added modified removed
        ac mc rc).added_count = added.length ∧
    (mkChangedFilesMetadata count files added modified removed
        ac mc rc).modified_count = modified.length ∧
    (mkChangedFilesMetadata count files added modified removed
        ac mc rc).removed_count = removed.length :=
  ⟨rfl, rfl, rfl, rfl⟩

/-- C2: for every detection context — any event name, any payload, any
accessor availability and any exceptions raised by the accessor
primitives — `ChangedFilesExtractor.extract` never propagates an exception
(the model is a total function whose `Except`-valued oracle results are
matched exactly at the source's `try/except` boundaries), and on total
failure of every fallible primitive it returns a `ChangedFilesMetadata`
with `files`, `added`, `modified` and `removed` all empty. -/
theorem C2_extract_empty_on_total_failure (cfg : ConfigM)
    (pay : EventPayload) (api : Option GitHubAPIO) (ops : Option GitOpsO)
    (hg : ∀ g, ops = some g → g.AllFail)
    (ha : ∀ a, api = some a → a.AllFail) :
    (ChangedFilesExtractor.extract cfg api ops pay).1.files = [] ∧
    (ChangedFilesExtractor.extract cfg api ops pay).1.added = [] ∧
    (ChangedFilesExtractor.extract cfg api ops pay).1.modified = [] ∧
    (ChangedFilesExtractor.extract cfg api ops pay).1.removed = [] := by
  have hres : (extract_result cfg api ops pay).1 = ([], emptyCat) := by
    rcases extract_result_cases cfg api ops pay with
      h | ⟨c, ⟨g, hog, hsrc⟩, h⟩ | ⟨a, n, fs, hoa, hf, h⟩
    · exact h
    · exfalso
      rcases hsrc with ⟨a, b, hok⟩ | ⟨s, hok⟩ | ⟨a, b, hok⟩
      · obtain ⟨e, he⟩ := (hg g hog).1 a b
        rw [he] at hok
        exact Except.noConfusion hok
      · obtain ⟨e, he⟩ := (hg g hog).2.1 s
        rw [he] at hok
        exact Except.noConfusion hok
      · obtain ⟨e, he⟩ := (hg g hog).2.2.1 a b
        rw [he] at hok
        exact Except.noConfusion hok
    · exfalso
      obtain ⟨e, he⟩ := ha a hoa cfg.GITHUB_REPOSITORY n
      rw [he] at hf
      exact Except.noConfusion hf
  rw [extract_metadata, hres]
  exact ⟨rfl, rfl, rfl, rfl⟩

/-! ## Strategy and trace helper lemmas -/

theorem extract_pr_api_trace_api_only (cfg : ConfigM)
    (api : Option GitHubAPIO) (pay : EventPayload) :
    ∀ ev ∈ (extract_pr_api cfg api pay).2, ev.isGit = false := by
  rcases api with _ | a
  · intro ev h
    simp [extract_pr_api] at h
  · simp only [extract_pr_api]
    rcases hn : get_pr_number cfg pay with _ | n
    · intro ev h
      simp at h
    · dsimp only
      split_ifs with h0
      · intro ev h
        simp at h
      · rcases hf : a.get_pr_files cfg.GITHUB_REPOSITORY n with e | fs <;>
          · intro ev h
            have hev := List.mem_singleton.mp h
            subst hev
            rfl

theorem determine_auto_api (cfg : ConfigM) (apiPresent : Bool)
    (ops : Option GitOpsO) (hmode : cfg.CHANGE_DETECTION = "auto")
    (hapi : apiPresent = true) (htok : truthy cfg.GITHUB_TOKEN = true) :
    determine_pr_strategy cfg apiPresent ops = some Strategy.api := by
  unfold determine_pr_strategy
  rw [hmode, hapi, htok]
  rfl

theorem determine_auto_git (cfg : ConfigM) (apiPresent : Bool) (g : GitOpsO)
    (hmode : cfg.CHANGE_DETECTION = "auto")
    (htok : truthy cfg.GITHUB_TOKEN = false)
    (hg : g.has_git_repo = true) :
    determine_pr_strategy cfg apiPresent (some g) = some Strategy.git := by
  simp [determine_pr_strategy, hmode, htok, hg]

theorem determine_auto_none (cfg : ConfigM) (apiPresent : Bool)
    (ops : Option GitOpsO) (hmode : cfg.CHANGE_DETECTION = "auto")
    (hno : apiPresent = false ∨ truthy cfg.GITHUB_TOKEN = false)
    (hgit : ∀ g, ops = some g → g.has_git_repo = false) :
    determine_pr_strategy cfg apiPresent ops = none := by
  have hand : (apiPresent && truthy cfg.GITHUB_TOKEN) = false := by
    rcases hno with h | h <;> simp [h]
  rcases ops with _ | g
  · simp [determine_pr_strategy, hmode, hand]
  · simp [determine_pr_strategy, hmode, hand, hgit g rfl]

theorem extract_pr_api_ok (cfg : ConfigM) (a : GitHubAPIO)
    (pay : EventPayload) (n : Nat) (fs : List String)
    (hn : get_pr_number cfg pay = some n) (hn0 : n ≠ 0)
    (hf : a.get_pr_files cfg.GITHUB_REPOSITORY n = Except.ok fs) :
    extract_pr_api cfg (some a) pay =
      ((fs, ⟨[], fs, []⟩), [Ev.evApiGetPrFiles cfg.GITHUB_REPOSITORY n]) := by
  unfold extract_pr_api
  rw [hn]
  dsimp only
  rw [if_neg (fun h => hn0 (by simpa using h)), hf]

theorem extract_pr_api_no_number (cfg : ConfigM) (api : Option GitHubAPIO)
    (pay : EventPayload)
    (hn : get_pr_number cfg pay = none ∨ get_pr_number cfg pay = some 0) :
    (extract_pr_api cfg api pay).1 = ([], emptyCat) := by
  rcases api with _ | a
  · rfl
  · unfold extract_pr_api
    rcases hn with h | h <;> rw [h]
    rfl

theorem extract_pr_api_error (cfg : ConfigM) (a : GitHubAPIO)
    (pay : EventPayload) (n : Nat) (e : GitErr)
    (hn : get_pr_number cfg pay = some n) (hn0 : n ≠ 0)
    (hf : a.get_pr_files cfg.GITHUB_REPOSITORY n = Except.error e) :
    extract_pr_api cfg (some a) pay =
      (([], emptyCat), [Ev.evApiGetPrFiles cfg.GITHUB_REPOSITORY n]) := by
  unfold extract_pr_api
  rw [hn]
  dsimp only
  rw [if_neg (fun h => hn0 (by simpa using h)), hf]

/-- C5: for a pull-request event with detection mode "auto": when both a
GitHub API client and a (truthy) authentication token are available the
engine selects the remote-API strategy and its trace contains no
local-history git primitive; when no token is available but a git
repository is present it selects the local-history strategy; when neither
source is available it selects no strategy and returns an empty result. -/
theorem C5_pr_auto_strategy_selection (cfg : ConfigM)
    (api : Option GitHubAPIO) (ops : Option GitOpsO) (pay : EventPayload)
    (hev : cfg.GITHUB_EVENT_NAME = "pull_request" ∨
      cfg.GITHUB_EVENT_NAME = "pull_request_target")
    (hmode : cfg.CHANGE_DETECTION = "auto") :
    ((api.isSome = true ∧ truthy cfg.GITHUB_TOKEN = true) →
      determine_pr_strategy cfg api.isSome ops = some Strategy.api ∧
      ∀ ev ∈ (ChangedFilesExtractor.extract cfg api ops pay).2,
        ev.isGit = false) ∧
    ((truthy cfg.GITHUB_TOKEN = false ∧
        ∃ g, ops = some g ∧ g.has_git_repo = true) →
      determine_pr_strategy cfg api.isSome ops = some Strategy.git) ∧
    (((api.isSome = false ∨ truthy cfg.GITHUB_TOKEN = false) ∧
        (∀ g, ops = some g → g.has_git_repo = false)) →
      determine_pr_strategy cfg api.isSome ops = none ∧
      (ChangedFilesExtractor.extract cfg api ops pay).1.files = [] ∧
      (ChangedFilesExtractor.extract cfg api ops pay).1.added = [] ∧
      (ChangedFilesExtractor.extract cfg api ops pay).1.modified = [] ∧
      (ChangedFilesExtractor.extract cfg api ops pay).1.removed = []) := by
  refine ⟨?_, ?_, ?_⟩
  · rintro ⟨hapi, htok⟩
    have hs := determine_auto_api cfg api.isSome ops hmode hapi htok
    refine ⟨hs, ?_⟩
    rw [extract_trace, extract_result_pr cfg api ops pay hev,
      extract_pull_request_api cfg api ops pay hs]
    exact extract_pr_api_trace_api_only cfg api pay
  · rintro ⟨htok, g, hog, hg⟩
    subst hog
    exact determine_auto_git cfg api.isSome g hmode htok hg
  · rintro ⟨hno, hgit⟩
    have hs := determine_auto_none cfg api.isSome ops hmode hno hgit
    have hres : (extract_result cfg api ops pay).1 = ([], emptyCat) := by
      rw [extract_result_pr cfg api ops pay hev,
        extract_pull_request_none cfg api ops pay hs]
    refine ⟨hs, ?_⟩
    rw [extract_metadata, hres]
    exact ⟨rfl, rfl, rfl, rfl⟩

/-- C6: for every pull-request detection that executes the remote-API
strategy and succeeds, the resulting metadata has `modified` equal to the
file list the API returned, `files` equal to that same list, and `added`
and `removed` both empty. -/
theorem C6_api_path_everything_modified (cfg : ConfigM)
    (api : Option GitHubAPIO) (ops : Option GitOpsO) (pay : EventPayload)
    (a : GitHubAPIO) (n : Nat) (fs : List String)
    (hev : cfg.GITHUB_EVENT_NAME = "pull_request" ∨
      cfg.GITHUB_EVENT_NAME = "pull_request_target")
    (hs : determine_pr_strategy cfg api.isSome ops = some Strategy.api)
    (hapi : api = some a)
    (hn : get_pr_number cfg pay = some n) (hn0 : n ≠ 0)
    (hf : a.get_pr_files cfg.GITHUB_REPOSITORY n = Except.ok fs) :
    (ChangedFilesExtractor.extract cfg api ops pay).1.files = fs ∧
    (ChangedFilesExtractor.extract cfg api ops pay).1.modified = fs ∧
    (ChangedFilesExtractor.extract cfg api ops pay).1.added = [] ∧
    (ChangedFilesExtractor.extract cfg api ops pay).1.removed = [] := by
  have hres : (extract_result cfg api ops pay).1 = (fs, ⟨[], fs, []⟩) := by
    rw [extract_result_pr cfg api ops pay hev,
      extract_pull_request_api cfg api ops pay hs, hapi,
      extract_pr_api_ok cfg a pay n fs hn hn0 hf]
  rw [extract_metadata, hres]
  exact ⟨rfl, rfl, rfl, rfl⟩

/-- C10: for a pull-request event where the remote-API strategy is
selected, a failure to resolve the PR number or an API call that raises
yields an empty result, and the engine never invokes a local-history git
primitive: an API failure does not fall back to git. -/
theorem C10_api_failure_never_falls_back_to_git (cfg : ConfigM)
    (api : Option GitHubAPIO) (ops : Option GitOpsO) (pay : EventPayload)
    (hev : cfg.GITHUB_EVENT_NAME = "pull_request" ∨
      cfg.GITHUB_EVENT_NAME = "pull_request_target")
    (hs : determine_pr_strategy cfg api.isSome ops = some Strategy.api) :
    (∀ ev ∈ (ChangedFilesExtractor.extract cfg api ops pay).2,
      ev.isGit = false) ∧
    ((get_pr_number cfg pay = none ∨ get_pr_number cfg pay = some 0) →
      (ChangedFilesExtractor.extract cfg api ops pay).1.files = [] ∧
      (ChangedFilesExtractor.extract cfg api ops pay).1.added = [] ∧
      (ChangedFilesExtractor.extract cfg api ops pay).1.modified = [] ∧
      (ChangedFilesExtractor.extract cfg api ops pay).1.removed = []) ∧
    (∀ a n e, api = some a → get_pr_number cfg pay = some n → n ≠ 0 →
      a.get_pr_files cfg.GITHUB_REPOSITORY n = Except.error e →
      (ChangedFilesExtractor.extract cfg api ops pay).1.files = [] ∧
      (ChangedFilesExtractor.extract cfg api ops pay).1.added = [] ∧
      (ChangedFilesExtractor.extract cfg api ops pay).1.modified = [] ∧
      (ChangedFilesExtractor.extract cfg api ops pay).1.removed = []) := by
  have hdispatch : extract_result cfg api ops pay = extract_pr_api cfg api pay := by
    rw [extract_result_pr cfg api ops pay hev,
      extract_pull_request_api cfg api ops pay hs]
  refine ⟨?_, ?_, ?_⟩
  · rw [extract_trace, hdispatch]
    exact extract_pr_api_trace_api_only cfg api pay
  · intro hn
    have hres : (extract_result cfg api ops pay).1 = ([], emptyCat) := by
      rw [hdispatch]
      exact extract_pr_api_no_number cfg api pay hn
    rw [extract_metadata, hres]
    exact ⟨rfl, rfl, rfl, rfl⟩
  · intro a n e hapi hn hn0 hf
    have hres : (extract_result cfg api ops pay).1 = ([], emptyCat) := by
      rw [hdispatch, hapi, extract_pr_api_error cfg a pay n e hn hn0 hf]
    rw [extract_metadata, hres]
    exact ⟨rfl, rfl, rfl, rfl⟩

/-! ## Push-path trace lemmas -/

theorem push_single_commit_trace (g : GitOpsO) (cfg : ConfigM) :
    (push_single_commit g cfg).2 = [Ev.evCommitFiles cfg.GITHUB_SHA] := by
  unfold push_single_commit
  rcases g.get_commit_files_categorized cfg.GITHUB_SHA with e | c <;> rfl

theorem push_with_shas_range (g : GitOpsO) (cfg : ConfigM) (b a : String)
    (hb : b ≠ "") (ha : a ≠ "") (hn1 : b ≠ nullSha) (hn2 : b ≠ "null") :
    (push_with_shas g cfg b a).2 = [Ev.evDiffCommits b a] := by
  unfold push_with_shas
  rw [if_neg (by simp [hb, ha]), if_pos (by simp [hn1, hn2])]
  rcases g.diff_commits_categorized b a with e | c <;> rfl

theorem push_with_shas_fallback (g : GitOpsO) (cfg : ConfigM) (b a : String)
    (h : b = "" ∨ a = "" ∨ b = nullSha ∨ b = "null") :
    push_with_shas g cfg b a = push_single_commit g cfg := by
  unfold push_with_shas
  split_ifs with h1 h2
  · rfl
  · exfalso
    rw [Bool.or_eq_true, beq_iff_eq, beq_iff_eq] at h1
    rw [Bool.and_eq_true, bne_iff_ne, bne_iff_ne] at h2
    push_neg at h1
    rcases h with h | h | h | h
    · exact h1.1 h
    · exact h1.2 h
    · exact h2.1 h
    · exact h2.2 h
  · rfl

theorem extract_push_event_shas (g : GitOpsO) (cfg : ConfigM)
    (pay : EventPayload) (b a : String) (hg : g.has_git_repo = true)
    (hps : pay.pushShas = (some b, some a)) :
    extract_push_event (some g) cfg pay = push_with_shas g cfg b a := by
  simp only [extract_push_event]
  rw [hg, hps]
  rfl

theorem extract_push_event_noshas (g : GitOpsO) (cfg : ConfigM)
    (pay : EventPayload) (hg : g.has_git_repo = true)
    (hps : pay.pushShas.1 = none ∨ pay.pushShas.2 = none) :
    extract_push_event (some g) cfg pay = push_single_commit g cfg := by
  simp only [extract_push_event]
  rw [hg]
  rcases hp : pay.pushShas with ⟨b?, a?⟩
  rw [hp] at hps
  rcases hps with h | h
  · simp only at h
    subst h
    rcases a? with _ | av <;> rfl
  · simp only at h
    subst h
    rcases b? with _ | bv <;> rfl

/-- C3 (amended): for a push event with a git repository available, the
before/after range-diff path is taken if and only if the event payload
yields both a before and an after identifier, both non-empty, and the
before identifier is neither the 40-zero null-commit sentinel nor the
literal string "null"; in that case the range-diff primitive is called
exactly once with exactly those identifiers; in every other case (an empty
identifier, the null sentinel, the string "null", or an absent pair) the
engine calls the single-commit diff of the current commit exactly once. -/
theorem C3_amended_push_range_condition (cfg : ConfigM)
    (api : Option GitHubAPIO) (ops : Option GitOpsO) (pay : EventPayload)
    (g : GitOpsO) (hev : cfg.GITHUB_EVENT_NAME = "push")
    (hops : ops = some g) (hg : g.has_git_repo = true) :
    (∀ b a, pay.pushShas = (some b, some a) → b ≠ "" → a ≠ "" →
      b ≠ nullSha → b ≠ "null" →
      (ChangedFilesExtractor.extract cfg api ops pay).2 =
        [Ev.evDiffCommits b a]) ∧
    (∀ b a, pay.pushShas = (some b, some a) →
      (b = "" ∨ a = "" ∨ b = nullSha ∨ b = "null") →
      (ChangedFilesExtractor.extract cfg api ops pay).2 =
        [Ev.evCommitFiles cfg.GITHUB_SHA]) ∧
    ((pay.pushShas.1 = none ∨ pay.pushShas.2 = none) →
      (ChangedFilesExtractor.extract cfg api ops pay).2 =
        [Ev.evCommitFiles cfg.GITHUB_SHA]) := by
  subst hops
  have htr : (ChangedFilesExtractor.extract cfg api (some g) pay).2 =
      (extract_push_event (some g) cfg pay).2 := by
    rw [extract_trace, extract_result_push cfg api (some g) pay hev]
  refine ⟨?_, ?_, ?_⟩
  · intro b a hps hb ha hn1 hn2
    rw [htr, extract_push_event_shas g cfg pay b a hg hps]
    exact push_with_shas_range g cfg b a hb ha hn1 hn2
  · intro b a hps h
    rw [htr, extract_push_event_shas g cfg pay b a hg hps,
      push_with_shas_fallback g cfg b a h]
    exact push_single_commit_trace g cfg
  · intro hps
    rw [htr, extract_push_event_noshas g cfg pay hg hps]
    exact push_single_commit_trace g cfg

/-! ## Pull-request git-path trace lemmas -/

theorem fallback_diff_tree_trace (g : GitOpsO) :
    (fallback_diff_tree g).2 =
      [Ev.evDiffCommits "HEAD^1" "HEAD", Ev.evCommitFiles "HEAD"] := by
  unfold fallback_diff_tree
  rcases g.get_commit_files_categorized "HEAD" with e | c
  · rfl
  · dsimp only
    split_ifs with he <;> rfl

theorem extract_pr_git_fallback_trace (g : GitOpsO) :
    (extract_pr_git_fallback (some g)).2 =
        [Ev.evDiffCommits "HEAD^1" "HEAD"] ∨
    (extract_pr_git_fallback (some g)).2 =
        [Ev.evDiffCommits "HEAD^1" "HEAD", Ev.evCommitFiles "HEAD"] := by
  simp only [extract_pr_git_fallback]
  rcases hd : g.diff_commits_categorized "HEAD^1" "HEAD" with e | c
  · right
    exact fallback_diff_tree_trace g
  · dsimp only
    split_ifs with he
    · right
      exact fallback_diff_tree_trace g
    · left
      rfl

theorem extract_pr_git_fallback_trace_head (g : GitOpsO) :
    ∃ rest, (extract_pr_git_fallback (some g)).2 =
      Ev.evDiffCommits "HEAD^1" "HEAD" :: rest := by
  rcases extract_pr_git_fallback_trace g with h | h
  · exact ⟨[], h⟩
  · exact ⟨[Ev.evCommitFiles "HEAD"], h⟩

theorem pr_shallow_fetch_ok (g : GitOpsO) (cfg : ConfigM) (br : String)
    (hsh : g.is_shallow_clone = true) (u : Unit)
    (hf : g.fetch_branch br (some 1) = Except.ok u) :
    pr_shallow_fetch g cfg br = [Ev.evFetchBranch br (some 1)] := by
  unfold pr_shallow_fetch
  rw [hsh, hf]
  rfl

theorem pr_shallow_fetch_error (g : GitOpsO) (cfg : ConfigM) (br : String)
    (hsh : g.is_shallow_clone = true) (e : GitErr)
    (hf : g.fetch_branch br (some 1) = Except.error e) :
    pr_shallow_fetch g cfg br =
      [Ev.evFetchBranch br (some 1), Ev.evDeepen cfg.GIT_FETCH_DEPTH] := by
  unfold pr_shallow_fetch
  rw [hsh, hf]
  rfl

theorem extract_pr_git_base_trace (cfg : ConfigM) (g : GitOpsO)
    (hbase : truthy cfg.GITHUB_BASE_REF = true) :
    ∃ tail,
      (extract_pr_git cfg (some g)).2 =
        pr_shallow_fetch g cfg ("origin/" ++ cfg.GITHUB_BASE_REF.getD "") ++
        Ev.evDiffBranches ("origin/" ++ cfg.GITHUB_BASE_REF.getD "") "HEAD"
          :: tail ∧
      (Ev.evDeepen cfg.GIT_FETCH_DEPTH ∉ tail) := by
  simp only [extract_pr_git]
  rw [hbase, if_neg (by simp : ¬((!true : Bool) = true))]
  rcases hd : g.diff_branches_categorized
      ("origin/" ++ cfg.GITHUB_BASE_REF.getD "") "HEAD" with e | c
  · refine ⟨[], by simp, by simp⟩
  · dsimp only
    split_ifs with he
    · refine ⟨(extract_pr_git_fallback (some g)).2, by simp, ?_⟩
      rcases extract_pr_git_fallback_trace g with h | h <;> rw [h] <;> simp
    · refine ⟨[], by simp, by simp⟩

/-- C7: for a pull-request local-history execution on a shallow clone with
a base ref present: the engine first attempts a depth-1 fetch of the base
branch; a deepen by the configured fetch depth is attempted exactly when
that fetch raises; and even when both raise the engine still invokes the
three-way diff against the base branch. -/
theorem C7_shallow_fetch_deepen_then_diff (cfg : ConfigM)
    (api : Option GitHubAPIO) (ops : Option GitOpsO) (pay : EventPayload)
    (g : GitOpsO)
    (hev : cfg.GITHUB_EVENT_NAME = "pull_request" ∨
      cfg.GITHUB_EVENT_NAME = "pull_request_target")
    (hs : determine_pr_strategy cfg api.isSome ops = some Strategy.git)
    (hops : ops = some g)
    (hbase : truthy cfg.GITHUB_BASE_REF = true)
    (hsh : g.is_shallow_clone = true) :
    (∀ u, g.fetch_branch ("origin/" ++ cfg.GITHUB_BASE_REF.getD "")
        (some 1) = Except.ok u →
      ∃ tail,
        (ChangedFilesExtractor.extract cfg api ops pay).2 =
          Ev.evFetchBranch ("origin/" ++ cfg.GITHUB_BASE_REF.getD "")
              (some 1) ::
            Ev.evDiffBranches ("origin/" ++ cfg.GITHUB_BASE_REF.getD "")
              "HEAD" :: tail ∧
        Ev.evDeepen cfg.GIT_FETCH_DEPTH ∉
          (ChangedFilesExtractor.extract cfg api ops pay).2) ∧
    (∀ e, g.fetch_branch ("origin/" ++ cfg.GITHUB_BASE_REF.getD "")
        (some 1) = Except.error e →
      ∃ tail,
        (ChangedFilesExtractor.extract cfg api ops pay).2 =
          Ev.evFetchBranch ("origin/" ++ cfg.GITHUB_BASE_REF.getD "")
              (some 1) ::
            Ev.evDeepen cfg.GIT_FETCH_DEPTH ::
            Ev.evDiffBranches ("origin/" ++ cfg.GITHUB_BASE_REF.getD "")
              "HEAD" :: tail) := by
  subst hops
  have htr : (ChangedFilesExtractor.extract cfg api (some g) pay).2 =
      (extract_pr_git cfg (some g)).2 := by
    rw [extract_trace, extract_result_pr cfg api (some g) pay hev,
      extract_pull_request_git cfg api (some g) pay hs]
  obtain ⟨tail, htail, hnd⟩ := extract_pr_git_base_trace cfg g hbase
  constructor
  · intro u hf
    refine ⟨tail, ?_, ?_⟩
    · rw [htr, htail, pr_shallow_fetch_ok g cfg _ hsh u hf]
      rfl
    · rw [htr, htail, pr_shallow_fetch_ok g cfg _ hsh u hf]
      simp only [List.cons_append, List.nil_append, List.mem_cons]
      rintro (h | h | h)
      · exact Ev.noConfusion h
      · exact Ev.noConfusion h
      · exact hnd h
  · intro e hf
    refine ⟨tail, ?_⟩
    rw [htr, htail, pr_shallow_fetch_error g cfg _ hsh e hf]
    rfl

/-! ## Fallback-chain lemmas for C8 -/

theorem extract_pr_git_no_base (cfg : ConfigM) (g : GitOpsO)
    (hbase : truthy cfg.GITHUB_BASE_REF = false) :
    extract_pr_git cfg (some g) = extract_pr_git_fallback (some g) := by
  simp only [extract_pr_git]
  rw [hbase]
  rfl

theorem extract_pr_git_empty_diff (cfg : ConfigM) (g : GitOpsO)
    (c : Categorized) (hbase : truthy cfg.GITHUB_BASE_REF = true)
    (hd : g.diff_branches_categorized
      ("origin/" ++ cfg.GITHUB_BASE_REF.getD "") "HEAD" = Except.ok c)
    (he : c.allOf = []) :
    extract_pr_git cfg (some g) =
      ((extract_pr_git_fallback (some g)).1,
        pr_shallow_fetch g cfg ("origin/" ++ cfg.GITHUB_BASE_REF.getD "") ++
          [Ev.evDiffBranches ("origin/" ++ cfg.GITHUB_BASE_REF.getD "")
            "HEAD"] ++ (extract_pr_git_fallback (some g)).2) := by
  simp only [extract_pr_git]
  rw [hbase, if_neg (by simp : ¬((!true : Bool) = true)), hd]
  dsimp only
  rw [if_pos (by rw [he] ; rfl : c.allOf.isEmpty = true)]

theorem fallback_strat1_error (g : GitOpsO) (e : GitErr)
    (hd : g.diff_commits_categorized "HEAD^1" "HEAD" = Except.error e) :
    extract_pr_git_fallback (some g) = fallback_diff_tree g := by
  simp only [extract_pr_git_fallback]
  rw [hd]

theorem fallback_strat1_empty (g : GitOpsO) (c : Categorized)
    (hd : g.diff_commits_categorized "HEAD^1" "HEAD" = Except.ok c)
    (he : c.allOf = []) :
    extract_pr_git_fallback (some g) = fallback_diff_tree g := by
  simp only [extract_pr_git_fallback]
  rw [hd]
  dsimp only
  rw [if_pos (by rw [he] ; rfl : c.allOf.isEmpty = true)]

theorem fallback_strat1_hit (g : GitOpsO) (c : Categorized)
    (hd : g.diff_commits_categorized "HEAD^1" "HEAD" = Except.ok c)
    (hne : c.allOf ≠ []) :
    extract_pr_git_fallback (some g) =
      ((c.allOf, c), [Ev.evDiffCommits "HEAD^1" "HEAD"]) := by
  simp only [extract_pr_git_fallback]
  rw [hd]
  dsimp only
  rw [if_neg (by simpa [List.isEmpty_iff] using hne)]

theorem fallback_strat2_hit (g : GitOpsO) (c : Categorized)
    (hd : g.get_commit_files_categorized "HEAD" = Except.ok c)
    (hne : c.allOf ≠ []) :
    fallback_diff_tree g =
      ((c.allOf, c),
        [Ev.evDiffCommits "HEAD^1" "HEAD", Ev.evCommitFiles "HEAD"]) := by
  unfold fallback_diff_tree
  rw [hd]
  dsimp only
  rw [if_neg (by simpa [List.isEmpty_iff] using hne)]

theorem fallback_diff_tree_exhausted (g : GitOpsO)
    (h2 : ∀ c, g.get_commit_files_categorized "HEAD" = Except.ok c →
      c.allOf = []) :
    fallback_diff_tree g =
      (([], emptyCat),
        [Ev.evDiffCommits "HEAD^1" "HEAD", Ev.evCommitFiles "HEAD"]) := by
  unfold fallback_diff_tree
  rcases hd : g.get_commit_files_categorized "HEAD" with e | c
  · rfl
  · dsimp only
    rw [if_pos (by rw [h2 c hd] ; rfl : c.allOf.isEmpty = true)]

theorem fallback_exhausted (g : GitOpsO)
    (h1 : ∀ c, g.diff_commits_categorized "HEAD^1" "HEAD" = Except.ok c →
      c.allOf = [])
    (h2 : ∀ c, g.get_commit_files_categorized "HEAD" = Except.ok c →
      c.allOf = []) :
    extract_pr_git_fallback (some g) =
      (([], emptyCat),
        [Ev.evDiffCommits "HEAD^1" "HEAD", Ev.evCommitFiles "HEAD"]) := by
  rcases hd : g.diff_commits_categorized "HEAD^1" "HEAD" with e | c
  · rw [fallback_strat1_error g e hd]
    exact fallback_diff_tree_exhausted g h2
  · rw [fallback_strat1_empty g c hd (h1 c hd)]
    exact fallback_diff_tree_exhausted g h2

/-- C8: for a pull-request local-history execution: when the base ref is
absent, or the three-way diff against the base branch succeeds with zero
files, the engine runs the fallback chain — first the categorized diff of
`HEAD^1` against `HEAD`, then the categorized diff-tree of `HEAD` —
stopping at the first strategy yielding a non-empty result: a non-empty
`HEAD^1` success is returned as-is, while a `HEAD^1` call that succeeds
with zero files or raises delegates to the diff-tree strategy, whose own
non-empty success is returned; if every strategy yields nothing or raises
it returns the empty result, and no exception propagates (the model is
total). -/
theorem C8_pr_git_fallback_chain (cfg : ConfigM) (api : Option GitHubAPIO)
    (ops : Option GitOpsO) (pay : EventPayload) (g : GitOpsO)
    (hev : cfg.GITHUB_EVENT_NAME = "pull_request" ∨
      cfg.GITHUB_EVENT_NAME = "pull_request_target")
    (hs : determine_pr_strategy cfg api.isSome ops = some Strategy.git)
    (hops : ops = some g) :
    (truthy cfg.GITHUB_BASE_REF = false →
      extract_result cfg api ops pay = extract_pr_git_fallback (some g)) ∧
    (∀ c, truthy cfg.GITHUB_BASE_REF = true →
      g.diff_branches_categorized
        ("origin/" ++ cfg.GITHUB_BASE_REF.getD "") "HEAD" = Except.ok c →
      c.allOf = [] →
      (extract_result cfg api ops pay).1 =
        (extract_pr_git_fallback (some g)).1 ∧
      ∃ pre, (extract_result cfg api ops pay).2 =
        pre ++ (extract_pr_git_fallback (some g)).2) ∧
    (∃ rest, (extract_pr_git_fallback (some g)).2 =
      Ev.evDiffCommits "HEAD^1" "HEAD" :: rest) ∧
    (∀ c, g.diff_commits_categorized "HEAD^1" "HEAD" = Except.ok c →
      c.allOf ≠ [] →
      extract_pr_git_fallback (some g) =
        ((c.allOf, c), [Ev.evDiffCommits "HEAD^1" "HEAD"])) ∧
    (∀ c, g.diff_commits_categorized "HEAD^1" "HEAD" = Except.ok c →
      c.allOf = [] →
      extract_pr_git_fallback (some g) = fallback_diff_tree g) ∧
    (∀ e, g.diff_commits_categorized "HEAD^1" "HEAD" = Except.error e →
      extract_pr_git_fallback (some g) = fallback_diff_tree g) ∧
    (∀ c, g.get_commit_files_categorized "HEAD" = Except.ok c →
      c.allOf ≠ [] →
      fallback_diff_tree g =
        ((c.allOf, c),
          [Ev.evDiffCommits "HEAD^1" "HEAD", Ev.evCommitFiles "HEAD"])) ∧
    ((∀ c, g.diff_commits_categorized "HEAD^1" "HEAD" = Except.ok c →
        c.allOf = []) →
     (∀ c, g.get_commit_files_categorized "HEAD" = Except.ok c →
        c.allOf = []) →
      extract_pr_git_fallback (some g) =
        (([], emptyCat),
          [Ev.evDiffCommits "HEAD^1" "HEAD", Ev.evCommitFiles "HEAD"])) := by
  subst hops
  have hdisp : extract_result cfg api (some g) pay =
      extract_pr_git cfg (some g) := by
    rw [extract_result_pr cfg api (some g) pay hev,
      extract_pull_request_git cfg api (some g) pay hs]
  refine ⟨?_, ?_, extract_pr_git_fallback_trace_head g,
    fun c hd hne => fallback_strat1_hit g c hd hne,
    fun c hd he => fallback_strat1_empty g c hd he,
    fun e hd => fallback_strat1_error g e hd,
    fun c hd hne => fallback_strat2_hit g c hd hne,
    fun h1 h2 => fallback_exhausted g h1 h2⟩
  · intro hbase
    rw [hdisp]
    exact extract_pr_git_no_base cfg g hbase
  · intro c hbase hd he
    rw [hdisp, extract_pr_git_empty_diff cfg g c hbase hd he]
    exact ⟨rfl, ⟨pr_shallow_fetch g cfg
      ("origin/" ++ cfg.GITHUB_BASE_REF.getD "") ++
      [Ev.evDiffBranches ("origin/" ++ cfg.GITHUB_BASE_REF.getD "") "HEAD"],
      rfl⟩⟩

theorem metaInvariants_mk (files : List String) (c : Categorized)
    (hf : files = c.allOf ∨ files = sortedDedup c.allOf) (h : c.WF) :
    metaInvariants (mkChangedFilesMetadata files.length files c.added
      c.modified c.removed 0 0 0) := by
  have hmem : ∀ p, p ∈ files ↔
      p ∈ c.added ∨ p ∈ c.modified ∨ p ∈ c.removed := by
    intro p
    rcases hf with hf | hf <;> subst hf
    · simp [Categorized.allOf, or_assoc]
    · rw [mem_sortedDedup]
      simp [Categorized.allOf, or_assoc]
  exact ⟨hmem, h.1.imp (fun hab => ne_of_lt hab),
    h.2.1.imp (fun hab => ne_of_lt hab),
    h.2.2.1.imp (fun hab => ne_of_lt hab),
    h.2.2.2.1, h.2.2.2.2.1, h.2.2.2.2.2⟩

theorem metaInvariants_empty :
    metaInvariants (mkChangedFilesMetadata 0 [] [] [] [] 0 0 0) := by
  refine ⟨?_, ?_, ?_, ?_, ?_, ?_, ?_⟩ <;>
    simp [mkChangedFilesMetadata, ChangedFilesMetadata.sync_counts]

theorem metaInvariants_api (fs : List String) (hnd : fs.Nodup) :
    metaInvariants (mkChangedFilesMetadata fs.length fs [] fs [] 0 0 0) := by
  refine ⟨?_, ?_, ?_, ?_, ?_, ?_, ?_⟩
  · intro p
    simp [mkChangedFilesMetadata, ChangedFilesMetadata.sync_counts]
  · simp [mkChangedFilesMetadata, ChangedFilesMetadata.sync_counts]
  · exact hnd
  · simp [mkChangedFilesMetadata, ChangedFilesMetadata.sync_counts]
  · simp [mkChangedFilesMetadata, ChangedFilesMetadata.sync_counts]
  · simp [mkChangedFilesMetadata, ChangedFilesMetadata.sync_counts]
  · simp [mkChangedFilesMetadata, ChangedFilesMetadata.sync_counts]

theorem lastCommit_ok (g : GitOpsO) (c : Categorized)
    (hg : g.has_git_repo = true)
    (hc : g.get_commit_files_categorized "HEAD" = Except.ok c) :
    ChangedFilesLastCommitExtractor.extract (some g) =
      (mkChangedFilesMetadata (sortedDedup c.allOf).length
        (sortedDedup c.allOf) c.added c.modified c.removed 0 0 0,
       [Ev.evCommitFiles "HEAD"]) := by
  simp only [ChangedFilesLastCommitExtractor.extract]
  rw [hg, hc]
  rfl

/-- C1 (amended): every metadata produced by `ChangedFilesExtractor.extract`
(any event) or by the last-commit extractor, over oracles whose
categorized results are well-formed git diffs and whose API file lists are
duplicate-free, satisfies: `files` is set-equal to the union of `added`,
`modified` and `removed`; each category list has no duplicates; and no
path appears in more than one category.  For the last-commit extractor
`files` is additionally the deduplicated, lexicographically sorted union;
on the git-backed paths of the main extractor `files` is the
concatenation of the three category lists, which is not sorted in general
(see the counterexample). -/
theorem C1_amended_changeset_invariants (cfg : ConfigM)
    (api : Option GitHubAPIO) (ops : Option GitOpsO) (pay : EventPayload)
    (hwf : ∀ g, ops = some g → g.WFOutputs)
    (hapi : ∀ a, api = some a → ∀ repo n fs,
      a.get_pr_files repo n = Except.ok fs → fs.Nodup) :
    metaInvariants (ChangedFilesExtractor.extract cfg api ops pay).1 ∧
    metaInvariants (ChangedFilesLastCommitExtractor.extract ops).1 ∧
    (ChangedFilesLastCommitExtractor.extract ops).1.files =
      sortedDedup ((ChangedFilesLastCommitExtractor.extract ops).1.added ++
        (ChangedFilesLastCommitExtractor.extract ops).1.modified ++
        (ChangedFilesLastCommitExtractor.extract ops).1.removed) ∧
    (ChangedFilesLastCommitExtractor.extract ops).1.files.Sorted (· < ·) ∧
    (ChangedFilesLastCommitExtractor.extract ops).1.files.Nodup := by
  have hpush : metaInvariants (ChangedFilesExtractor.extract cfg api ops
      pay).1 := by
    rcases extract_result_cases cfg api ops pay with
      h | ⟨c, ⟨g, hog, hsrc⟩, h⟩ | ⟨a, n, fs, hoa, hf, h⟩
    · have hm : (ChangedFilesExtractor.extract cfg api ops pay).1 =
          mkChangedFilesMetadata 0 [] [] [] [] 0 0 0 := by
        rw [extract_metadata, h]
        rfl
      rw [hm]
      exact metaInvariants_empty
    · have hm : (ChangedFilesExtractor.extract cfg api ops pay).1 =
          mkChangedFilesMetadata c.allOf.length c.allOf c.added c.modified
            c.removed 0 0 0 := by
        rw [extract_metadata, h]
      have hcwf : c.WF := by
        rcases hsrc with ⟨a, b, hok⟩ | ⟨s, hok⟩ | ⟨a, b, hok⟩
        · exact (hwf g hog).1 a b c hok
        · exact (hwf g hog).2.1 s c hok
        · exact (hwf g hog).2.2 a b c hok
      rw [hm]
      exact metaInvariants_mk c.allOf c (Or.inl rfl) hcwf
    · have hm : (ChangedFilesExtractor.extract cfg api ops pay).1 =
          mkChangedFilesMetadata fs.length fs [] fs [] 0 0 0 := by
        rw [extract_metadata, h]
      rw [hm]
      exact metaInvariants_api fs (hapi a hoa cfg.GITHUB_REPOSITORY n fs hf)
  have hempty : metaInvariants (mkChangedFilesMetadata 0 [] [] [] [] 0 0
        0) ∧
      (mkChangedFilesMetadata 0 [] [] [] [] 0 0 0).files =
        sortedDedup ((mkChangedFilesMetadata 0 [] [] [] [] 0 0 0).added ++
          (mkChangedFilesMetadata 0 [] [] [] [] 0 0 0).modified ++
          (mkChangedFilesMetadata 0 [] [] [] [] 0 0 0).removed) ∧
      (mkChangedFilesMetadata 0 [] [] [] [] 0 0 0).files.Sorted (· < ·) ∧
      (mkChangedFilesMetadata 0 [] [] [] [] 0 0 0).files.Nodup :=
    ⟨metaInvariants_empty, rfl, by simp [mkChangedFilesMetadata,
      ChangedFilesMetadata.sync_counts], by simp [mkChangedFilesMetadata,
      ChangedFilesMetadata.sync_counts]⟩
  refine ⟨hpush, ?_⟩
  rcases ops with _ | g
  · exact hempty
  · rcases hg : g.has_git_repo with _ | _
    · have hx : ChangedFilesLastCommitExtractor.extract (some g) =
          (mkChangedFilesMetadata 0 [] [] [] [] 0 0 0, []) := by
        simp only [ChangedFilesLastCommitExtractor.extract]
        rw [hg]
        rfl
      rw [hx]
      exact hempty
    · rcases hc : g.get_commit_files_categorized "HEAD" with e | c
      · have hx : ChangedFilesLastCommitExtractor.extract (some g) =
            (mkChangedFilesMetadata 0 [] [] [] [] 0 0 0,
              [Ev.evCommitFiles "HEAD"]) := by
          simp only [ChangedFilesLastCommitExtractor.extract]
          rw [hg, hc]
          rfl
        rw [hx]
        exact hempty
      · rw [lastCommit_ok g c hg hc]
        have hcwf : c.WF := (hwf g rfl).2.1 "HEAD" c hc
        exact ⟨metaInvariants_mk (sortedDedup c.allOf) c (Or.inr rfl) hcwf,
          rfl, sortedDedup_sorted c.allOf, sortedDedup_nodup c.allOf⟩

/-! ## Merge-base cache lemmas (C4) -/

theorem lookup_insert_self (k : String) (v : Option String)
    (rest : List (String × Option String)) :
    MBState.lookup ⟨(k, v) :: rest⟩ k = some v := by
  simp [MBState.lookup, List.find?]

theorem diff_branches_miss (r : RepoO) (st : MBState)
    (base head bc hc : String) (mbs : List String)
    (hrp : r.repoPresent = true)
    (hb : r.resolve base = Except.ok bc) (hh : r.resolve head = Except.ok hc)
    (hmb : r.merge_base bc hc = Except.ok mbs)
    (hl : st.lookup (cacheKey base head) = none) :
    (GO.diff_branches_categorized r st base head).2 =
      (⟨(cacheKey base head, mbs.head?) :: st.cache⟩,
        [GitEv.mergeBaseCompute base head]) := by
  unfold GO.diff_branches_categorized
  rw [hrp, if_neg (by simp : ¬((!true : Bool) = true)), hb]
  dsimp only
  rw [hh]
  dsimp only
  rw [hl]
  dsimp only
  rw [hmb]
  exact afterMergeBase_state r bc hc mbs.head? _ _

theorem diff_branches_hit (r : RepoO) (st : MBState)
    (base head bc hc : String) (mb : Option String)
    (hrp : r.repoPresent = true)
    (hb : r.resolve base = Except.ok bc) (hh : r.resolve head = Except.ok hc)
    (hl : st.lookup (cacheKey base head) = some mb) :
    (GO.diff_branches_categorized r st base head).2 = (st, []) := by
  unfold GO.diff_branches_categorized
  rw [hrp, if_neg (by simp : ¬((!true : Bool) = true)), hb]
  dsimp only
  rw [hh]
  dsimp only
  rw [hl]
  exact afterMergeBase_state r bc hc mb st []

theorem fetch_branch_cases (r : RepoO) (st : MBState) (br : String)
    (d : Option Nat) :
    ((∃ e, (GO.fetch_branch r st br d).1 = Except.error e) ∧
      (GO.fetch_branch r st br d).2 = st) ∨
    ((GO.fetch_branch r st br d).1 = Except.ok () ∧
      (GO.fetch_branch r st br d).2 = ⟨[]⟩) := by
  unfold GO.fetch_branch
  rcases hrp : r.repoPresent with _ | _
  · exact Or.inl ⟨⟨_, rfl⟩, rfl⟩
  · rcases hf : r.fetchRes (fetchRefspec br) (fetchDepthArg d) with e | u
    · exact Or.inl ⟨⟨e, rfl⟩, rfl⟩
    · exact Or.inr ⟨rfl, rfl⟩

theorem deepen_cases (r : RepoO) (st : MBState) (d : Nat) :
    ((∃ e, (GO.deepen r st d).1 = Except.error e) ∧
      (GO.deepen r st d).2 = st) ∨
    ((GO.deepen r st d).1 = Except.ok () ∧ (GO.deepen r st d).2 = ⟨[]⟩) := by
  unfold GO.deepen
  rcases hrp : r.repoPresent with _ | _
  · exact Or.inl ⟨⟨_, rfl⟩, rfl⟩
  · rcases hd2 : r.deepenRes d with e | u
    · exact Or.inl ⟨⟨e, rfl⟩, rfl⟩
    · exact Or.inr ⟨rfl, rfl⟩

/-- C4: when the commit lookups and the merge-base computation of a pair
of refs succeed, two consecutive `diff_branches_categorized` calls with
identical arguments invoke the merge-base primitive at most once (the
second call is served from the cache); and a successful `fetch_branch` or
`deepen` clears the merge-base cache, after which the next
`diff_branches_categorized` call recomputes the merge base. -/
theorem C4_merge_base_memoization (r : RepoO) (st : MBState)
    (base head bc hc : String) (mbs : List String)
    (hrp : r.repoPresent = true)
    (hb : r.resolve base = Except.ok bc) (hh : r.resolve head = Except.ok hc)
    (hmb : r.merge_base bc hc = Except.ok mbs) :
    (((GO.diff_branches_categorized r st base head).2.2 ++
      (GO.diff_branches_categorized r
        (GO.diff_branches_categorized r st base head).2.1
        base head).2.2).length ≤ 1) ∧
    (∀ br d, (GO.fetch_branch r st br d).1 = Except.ok () →
      (GO.fetch_branch r st br d).2 = ⟨[]⟩ ∧
      (GO.diff_branches_categorized r (GO.fetch_branch r st br d).2
        base head).2.2 = [GitEv.mergeBaseCompute base head]) ∧
    (∀ d, (GO.deepen r st d).1 = Except.ok () →
      (GO.deepen r st d).2 = ⟨[]⟩ ∧
      (GO.diff_branches_categorized r (GO.deepen r st d).2
        base head).2.2 = [GitEv.mergeBaseCompute base head]) := by
  have hfresh : ∀ st2 : MBState, st2 = ⟨[]⟩ →
      (GO.diff_branches_categorized r st2 base head).2.2 =
        [GitEv.mergeBaseCompute base head] := by
    intro st2 h2
    subst h2
    rw [diff_branches_miss r ⟨[]⟩ base head bc hc mbs hrp hb hh hmb rfl]
  refine ⟨?_, ?_, ?_⟩
  · rcases hl : st.lookup (cacheKey base head) with _ | mb
    · have h1 := diff_branches_miss r st base head bc hc mbs hrp hb hh hmb hl
      have h2 := diff_branches_hit r
        ⟨(cacheKey base head, mbs.head?) :: st.cache⟩ base head bc hc
        mbs.head? hrp hb hh (lookup_insert_self _ _ _)
      rw [show (GO.diff_branches_categorized r st base head).2.2 =
            [GitEv.mergeBaseCompute base head] by rw [h1],
          show (GO.diff_branches_categorized r st base head).2.1 =
            ⟨(cacheKey base head, mbs.head?) :: st.cache⟩ by rw [h1],
          show (GO.diff_branches_categorized r
              ⟨(cacheKey base head, mbs.head?) :: st.cache⟩
              base head).2.2 = [] by rw [h2]]
      simp
    · have h1 := diff_branches_hit r st base head bc hc mb hrp hb hh hl
      rw [show (GO.diff_branches_categorized r st base head).2.2 = []
            by rw [h1],
          show (GO.diff_branches_categorized r st base head).2.1 = st
            by rw [h1],
          show (GO.diff_branches_categorized r st base head).2.2 = []
            by rw [h1]]
      simp
  · intro br d hok
    rcases fetch_branch_cases r st br d with ⟨⟨e, he⟩, h2⟩ | ⟨h1, h2⟩
    · rw [hok] at he
      exact absurd he (by simp)
    · exact ⟨h2, by rw [h2] ; exact hfresh ⟨[]⟩ rfl⟩
  · intro d hok
    rcases deepen_cases r st d with ⟨⟨e, he⟩, h2⟩ | ⟨h1, h2⟩
    · rw [hok] at he
      exact absurd he (by simp)
    · exact ⟨h2, by rw [h2] ; exact hfresh ⟨[]⟩ rfl⟩

theorem rEmptyW_wf : rEmptyW.WF := by
  constructor
  · intro cid
    exact List.nodup_nil
  · intro a b ds hd
    have h : ds = [] := by
      have h2 : Except.ok ([] : List DiffRecord) =
          (Except.ok ds : Except GitErr (List DiffRecord)) := hd
      injection h2 with h2
      exact h2.symm
    subst h
    intro d1 h1
    exact absurd h1 (List.not_mem_nil d1)

theorem gFailW_allFail : gFailW.AllFail :=
  ⟨fun _ _ => ⟨⟨"x"⟩, rfl⟩, fun _ => ⟨⟨"x"⟩, rfl⟩, fun _ _ => ⟨⟨"x"⟩, rfl⟩,
   fun _ _ => ⟨⟨"x"⟩, rfl⟩, fun _ => ⟨⟨"x"⟩, rfl⟩⟩

theorem apiFailW_allFail : apiFailW.AllFail := fun _ _ => ⟨⟨"x"⟩, rfl⟩

/-! ## Counterexamples and witnesses -/

/-- C1 counterexample: on a push with a valid before/after pair whose
range diff adds `b` and deletes `a`, the produced `files` list is the
concatenation `["b", "a"]` of the categories, not the deduplicated,
lexicographically sorted union `["a", "b"]` the claim requires. -/
theorem C1_counterexample_files_not_sorted :
    (ChangedFilesExtractor.extract cfgPushW none (some opsC1)
        payC1).1.files = ["b", "a"] ∧
    sortedDedup
      ((ChangedFilesExtractor.extract cfgPushW none (some opsC1)
          payC1).1.added ++
        (ChangedFilesExtractor.extract cfgPushW none (some opsC1)
          payC1).1.modified ++
        (ChangedFilesExtractor.extract cfgPushW none (some opsC1)
          payC1).1.removed) = ["a", "b"] ∧
    (ChangedFilesExtractor.extract cfgPushW none (some opsC1)
        payC1).1.files ≠
      sortedDedup
        ((ChangedFilesExtractor.extract cfgPushW none (some opsC1)
            payC1).1.added ++
          (ChangedFilesExtractor.extract cfgPushW none (some opsC1)
            payC1).1.modified ++
          (ChangedFilesExtractor.extract cfgPushW none (some opsC1)
            payC1).1.removed) := by
  have hba : ¬ (("b" : String) < "a") := by
    rw [String.lt_iff_toList_lt]
    decide
  have h1 : (ChangedFilesExtractor.extract cfgPushW none (some opsC1)
      payC1).1.files = ["b", "a"] := rfl
  have ha : (ChangedFilesExtractor.extract cfgPushW none (some opsC1)
      payC1).1.added = ["b"] := rfl
  have hm : (ChangedFilesExtractor.extract cfgPushW none (some opsC1)
      payC1).1.modified = [] := rfl
  have hr : (ChangedFilesExtractor.extract cfgPushW none (some opsC1)
      payC1).1.removed = ["a"] := rfl
  have h2 : sortedDedup
      ((ChangedFilesExtractor.extract cfgPushW none (some opsC1)
          payC1).1.added ++
        (ChangedFilesExtractor.extract cfgPushW none (some opsC1)
          payC1).1.modified ++
        (ChangedFilesExtractor.extract cfgPushW none (some opsC1)
          payC1).1.removed) = ["a", "b"] := by
    rw [ha, hm, hr]
    simp [sortedDedup, insertSorted, hba]
  refine ⟨h1, h2, ?_⟩
  rw [h1, h2]
  decide

theorem C1_amended_witness :
    metaInvariants (ChangedFilesExtractor.extract cfgPushW none
      (some opsEmptyW) payC1).1 ∧
    metaInvariants (ChangedFilesLastCommitExtractor.extract
      (some opsEmptyW)).1 :=
  have h := C1_amended_changeset_invariants cfgPushW none (some opsEmptyW)
    payC1
    (fun _ hg => (Option.some.inj hg) ▸
      ofRepo_WFOutputs true false rEmptyW rEmptyW_wf ⟨[]⟩)
    (fun _ ha => Option.noConfusion ha)
  ⟨h.1, h.2.1⟩

theorem C2_witness :
    (ChangedFilesExtractor.extract cfgPrAutoW (some apiFailW)
        (some gFailW) payN).1.files = [] ∧
    (ChangedFilesExtractor.extract cfgPrAutoW (some apiFailW)
        (some gFailW) payN).1.added = [] ∧
    (ChangedFilesExtractor.extract cfgPrAutoW (some apiFailW)
        (some gFailW) payN).1.modified = [] ∧
    (ChangedFilesExtractor.extract cfgPrAutoW (some apiFailW)
        (some gFailW) payN).1.removed = [] :=
  C2_extract_empty_on_total_failure cfgPrAutoW payN (some apiFailW)
    (some gFailW)
    (fun _ h => (Option.some.inj h) ▸ gFailW_allFail)
    (fun _ h => (Option.some.inj h) ▸ apiFailW_allFail)

/-- C3 counterexample: the payload yields both identifiers, the `before`
is the empty string — which is neither the null sentinel nor `"null"` —
yet the engine takes the single-commit fallback and never calls the
range-diff primitive, contradicting the claimed iff. -/
theorem C3_counterexample_empty_before :
    payC3.pushShas = (some "", some "bbbb") ∧
    ("" : String) ≠ nullSha ∧ ("" : String) ≠ "null" ∧
    (ChangedFilesExtractor.extract cfgPushW none (some opsC1) payC3).2 =
      [Ev.evCommitFiles "headsha"] ∧
    Ev.evDiffCommits "" "bbbb" ∉
      (ChangedFilesExtractor.extract cfgPushW none (some opsC1) payC3).2 ∧
    (ChangedFilesExtractor.extract cfgPushW none (some opsC1) payC3).2 ≠
      [Ev.evDiffCommits "" "bbbb"] := by
  have htr : (ChangedFilesExtractor.extract cfgPushW none (some opsC1)
      payC3).2 = [Ev.evCommitFiles "headsha"] := rfl
  refine ⟨rfl, by decide, by decide, htr, ?_, ?_⟩
  · rw [htr]
    decide
  · rw [htr]
    decide

theorem C3_amended_witness :
    opsC1.has_git_repo = true ∧
    payC1.pushShas = (some "aaaa", some "bbbb") ∧
    (ChangedFilesExtractor.extract cfgPushW none (some opsC1) payC1).2 =
      [Ev.evDiffCommits "aaaa" "bbbb"] :=
  ⟨rfl, rfl,
    (C3_amended_push_range_condition cfgPushW none (some opsC1) payC1
      opsC1 rfl rfl rfl).1 "aaaa" "bbbb" rfl (by decide) (by decide)
      (by decide) (by decide)⟩

theorem C4_witness :
    rW.repoPresent = true ∧
    rW.resolve "main" = Except.ok "main" ∧
    rW.merge_base "main" "HEAD" = Except.ok ["mb"] ∧
    ((GO.diff_branches_categorized rW ⟨[]⟩ "main" "HEAD").2.2 ++
      (GO.diff_branches_categorized rW
        (GO.diff_branches_categorized rW ⟨[]⟩ "main" "HEAD").2.1
        "main" "HEAD").2.2).length ≤ 1 :=
  ⟨rfl, rfl, rfl,
    (C4_merge_base_memoization rW ⟨[]⟩ "main" "HEAD" "main" "HEAD" ["mb"]
      rfl rfl rfl rfl).1⟩

theorem C5_witness :
    cfgPrAutoW.CHANGE_DETECTION = "auto" ∧
    truthy cfgPrAutoW.GITHUB_TOKEN = true ∧
    determine_pr_strategy cfgPrAutoW (some apiOkW).isSome (some opsC1) =
      some Strategy.api :=
  ⟨rfl, rfl,
    ((C5_pr_auto_strategy_selection cfgPrAutoW (some apiOkW) (some opsC1)
      payN (Or.inl rfl) rfl).1 ⟨rfl, rfl⟩).1⟩

theorem C6_witness :
    apiOkW.get_pr_files cfgPrAutoW.GITHUB_REPOSITORY 7 =
      Except.ok ["f1", "f2"] ∧
    (ChangedFilesExtractor.extract cfgPrAutoW (some apiOkW) (some opsC1)
        payN).1.files = ["f1", "f2"] ∧
    (ChangedFilesExtractor.extract cfgPrAutoW (some apiOkW) (some opsC1)
        payN).1.modified = ["f1", "f2"] ∧
    (ChangedFilesExtractor.extract cfgPrAutoW (some apiOkW) (some opsC1)
        payN).1.added = [] ∧
    (ChangedFilesExtractor.extract cfgPrAutoW (some apiOkW) (some opsC1)
        payN).1.removed = [] :=
  have h := C6_api_path_everything_modified cfgPrAutoW (some apiOkW)
    (some opsC1) payN apiOkW 7 ["f1", "f2"] (Or.inl rfl) rfl rfl
    rfl (by decide) rfl
  ⟨rfl, h.1, h.2.1, h.2.2.1, h.2.2.2⟩

theorem C7_witness :
    gShFailW.is_shallow_clone = true ∧
    gShFailW.fetch_branch "origin/main" (some 1) =
      Except.error ⟨"f"⟩ ∧
    (∃ tail,
      (ChangedFilesExtractor.extract cfgPrNoTokW none (some gShFailW)
          payN).2 =
        Ev.evFetchBranch "origin/main" (some 1) ::
          Ev.evDeepen 15 ::
          Ev.evDiffBranches "origin/main" "HEAD" :: tail) :=
  ⟨rfl, rfl,
    (C7_shallow_fetch_deepen_then_diff cfgPrNoTokW none (some gShFailW)
      payN gShFailW (Or.inl rfl) rfl rfl rfl rfl).2
      ⟨"f"⟩ rfl⟩

theorem C8_witness :
    opsC1.diff_commits_categorized "HEAD^1" "HEAD" =
      Except.ok ⟨["b"], [], ["a"]⟩ ∧
    extract_pr_git_fallback (some opsC1) =
      ((["b", "a"], ⟨["b"], [], ["a"]⟩),
        [Ev.evDiffCommits "HEAD^1" "HEAD"]) ∧
    gEmpty1W.diff_commits_categorized "HEAD^1" "HEAD" =
      Except.ok ⟨[], [], []⟩ ∧
    gEmpty1W.get_commit_files_categorized "HEAD" =
      Except.ok ⟨["x"], [], []⟩ ∧
    extract_pr_git_fallback (some gEmpty1W) = fallback_diff_tree gEmpty1W ∧
    fallback_diff_tree gEmpty1W =
      ((["x"], ⟨["x"], [], []⟩),
        [Ev.evDiffCommits "HEAD^1" "HEAD", Ev.evCommitFiles "HEAD"]) :=
  ⟨rfl,
    (C8_pr_git_fallback_chain cfgPrNoTokW none (some opsC1) payN opsC1
      (Or.inl rfl) rfl rfl).2.2.2.1 ⟨["b"], [], ["a"]⟩ rfl
      (by decide),
    rfl, rfl,
    (C8_pr_git_fallback_chain cfgPrNoTokW none (some gEmpty1W) payN
      gEmpty1W (Or.inl rfl) rfl rfl).2.2.2.2.1 ⟨[], [], []⟩ rfl rfl,
    (C8_pr_git_fallback_chain cfgPrNoTokW none (some gEmpty1W) payN
      gEmpty1W (Or.inl rfl) rfl rfl).2.2.2.2.2.2.1 ⟨["x"], [], []⟩ rfl
      (by decide)⟩

theorem C10_witness :
    apiFailW.get_pr_files cfgPrAutoW.GITHUB_REPOSITORY 7 =
      Except.error ⟨"x"⟩ ∧
    (ChangedFilesExtractor.extract cfgPrAutoW (some apiFailW)
        (some opsC1) payN).1.files = [] ∧
    (ChangedFilesExtractor.extract cfgPrAutoW (some apiFailW)
        (some opsC1) payN).1.added = [] ∧
    (ChangedFilesExtractor.extract cfgPrAutoW (some apiFailW)
        (some opsC1) payN).1.modified = [] ∧
    (ChangedFilesExtractor.extract cfgPrAutoW (some apiFailW)
        (some opsC1) payN).1.removed = [] :=
  ⟨rfl,
    (C10_api_failure_never_falls_back_to_git cfgPrAutoW (some apiFailW)
      (some opsC1) payN (Or.inl rfl) rfl).2.2 apiFailW 7 ⟨"x"⟩
      rfl rfl (by decide) rfl⟩

end RepoMeta

